import Mathlib

/-!
# graphlab::hopscotch_map

A shallow embedding of `src/graphlab/util/hopscotch_map.hpp`: the map adapter that turns the
fixed-capacity slot table `hopscotch_table` into a growable key/value map.

* machine integers (`size_t`) are naturals, reduced modulo `2^64` where the source can overflow;
* `assert(..)` is evaluated (debug build): a failing assertion aborts, which is the outer
  `Option` of the operations that can reach one (`none` = abort);
* an iterator is modelled by the entry it refers to: `none` is the `end()` sentinel, and
  dereferencing `none` is an error;
* the slot table (`graphlab/util/hopscotch_table.hpp`) and the lock
  (`graphlab/parallel/pthread_tools.hpp`) are not part of the sources at hand: the table is a
  parameter of the map (a record of its operations) constrained by the contract of the
  specification, and a concrete bounded-probing table is given to run the map on inputs.
-/

namespace graphlab

/-- The value `(size_t)(-1)`. -/
def SIZE_MAX : Nat := 2 ^ 64 - 1

/-! ## Key-projection adapters -/

/-- The functor `hash_redirect`: `hashfun(v.first)`. -/
def hash_redirect {K V : Type} (hashfun : K → Nat) (v : K × V) : Nat :=
  hashfun v.1

/-- The functor `key_equal_redirect`: `keyeq(v.first, v2.first)`. -/
def key_equal_redirect {K V : Type} (keyeq : K → K → Bool) (v v2 : K × V) : Bool :=
  keyeq v.1 v2.1

/-! ## The slot table collaborator -/

/-- Modelled from the spec: the class `hopscotch_table` (declared in
`graphlab/util/hopscotch_table.hpp`, which is not among the sources). The record lists the
operations of the "Slot Table collaborator contract" over a state type `T`, element type `E`
and key-probe type `P`, for a table class already instantiated with its hash and equality
functors:
`create n` is the constructor with requested capacity `n`; `elements` is the iteration
`begin() .. end()`; `find` returns an iterator (`none` on a miss); `insert` returns an iterator
(`none` on placement failure) and does not deduplicate; `erase` reports whether an entry was
removed; `clear` empties the table in place; `put_sync` reports `false` on placement failure;
`get_sync` returns `(found, element)`; `erase_sync` is the synchronized erase, which takes a
key probe (`erase_sync(key_probe) -> bool`) where the other operations take an element.
`assign t p x` is the write `*iter = x` through the iterator obtained for the probe `p`. -/
structure hopscotch_table (E P T : Type) where
  create : Nat → T
  size : T → Nat
  capacity : T → Nat
  elements : T → List E
  find : T → E → Option E
  insert : T → E → T × Option E
  erase : T → E → T × Bool
  clear : T → T
  assign : T → E → E → T
  put_sync : T → E → T × Bool
  get_sync : T → E → Bool × E
  erase_sync : T → P → T × Bool

/-- Modelled from the spec: the contract of the slot table that the map relies on, for a table
whose equality functor is `equalfun` and for which `probe_equal e p` tells whether the stored
element `e` is the one that the key probe `p` designates. Contents are compared as multisets (`List.Perm`), since
the iteration order is unspecified. `insert` either places exactly the new element or fails
leaving the content as it was; `find` hits exactly when an equal element is stored;
`put_sync` overwrites an equal element or places a new one, and reports failure only when no
equal element is stored and placement failed; no operation other than `create` changes the
capacity, and `create n` has capacity at least `n`. -/
structure hopscotch_table.Lawful {E P T : Type} (tbl : hopscotch_table E P T)
    (equalfun : E → E → Bool) (probe_equal : E → P → Bool) : Prop where
  size_eq : ∀ t, tbl.size t = (tbl.elements t).length
  create_elements : ∀ n, tbl.elements (tbl.create n) = []
  create_capacity : ∀ n, n ≤ tbl.capacity (tbl.create n)
  find_some : ∀ t p e, tbl.find t p = some e → e ∈ tbl.elements t ∧ equalfun e p = true
  find_none : ∀ t p, tbl.find t p = none → ∀ e ∈ tbl.elements t, equalfun e p = false
  insert_capacity : ∀ t x, tbl.capacity (tbl.insert t x).1 = tbl.capacity t
  insert_some : ∀ t x it, (tbl.insert t x).2 = some it →
    it = x ∧ (tbl.elements (tbl.insert t x).1).Perm (x :: tbl.elements t)
  insert_none : ∀ t x, (tbl.insert t x).2 = none →
    (tbl.elements (tbl.insert t x).1).Perm (tbl.elements t)
  erase_capacity : ∀ t p, tbl.capacity (tbl.erase t p).1 = tbl.capacity t
  erase_true : ∀ t p, (tbl.erase t p).2 = true →
    ∃ e, equalfun e p = true ∧ (tbl.elements t).Perm (e :: tbl.elements (tbl.erase t p).1)
  erase_false : ∀ t p, (tbl.erase t p).2 = false →
    (∀ e ∈ tbl.elements t, equalfun e p = false) ∧
      (tbl.elements (tbl.erase t p).1).Perm (tbl.elements t)
  clear_elements : ∀ t, tbl.elements (tbl.clear t) = []
  clear_capacity : ∀ t, tbl.capacity (tbl.clear t) = tbl.capacity t
  assign_capacity : ∀ t p x, tbl.capacity (tbl.assign t p x) = tbl.capacity t
  assign_found : ∀ t p x e, tbl.find t p = some e →
    ∃ rest, (tbl.elements t).Perm (e :: rest) ∧ (tbl.elements (tbl.assign t p x)).Perm (x :: rest)
  put_sync_capacity : ∀ t x, tbl.capacity (tbl.put_sync t x).1 = tbl.capacity t
  put_sync_true : ∀ t x, (tbl.put_sync t x).2 = true →
    (∃ e rest, equalfun e x = true ∧ (tbl.elements t).Perm (e :: rest) ∧
        (tbl.elements (tbl.put_sync t x).1).Perm (x :: rest)) ∨
    ((∀ e ∈ tbl.elements t, equalfun e x = false) ∧
        (tbl.elements (tbl.put_sync t x).1).Perm (x :: tbl.elements t))
  put_sync_false : ∀ t x, (tbl.put_sync t x).2 = false →
    (∀ e ∈ tbl.elements t, equalfun e x = false) ∧
      (tbl.elements (tbl.put_sync t x).1).Perm (tbl.elements t)
  get_sync_true : ∀ t p, (tbl.get_sync t p).1 = true →
    (tbl.get_sync t p).2 ∈ tbl.elements t ∧ equalfun (tbl.get_sync t p).2 p = true
  get_sync_false : ∀ t p, (tbl.get_sync t p).1 = false →
    ∀ e ∈ tbl.elements t, equalfun e p = false
  erase_sync_capacity : ∀ t p, tbl.capacity (tbl.erase_sync t p).1 = tbl.capacity t
  erase_sync_true : ∀ t p, (tbl.erase_sync t p).2 = true →
    ∃ e, probe_equal e p = true ∧
      (tbl.elements t).Perm (e :: tbl.elements (tbl.erase_sync t p).1)
  erase_sync_false : ∀ t p, (tbl.erase_sync t p).2 = false →
    (∀ e ∈ tbl.elements t, probe_equal e p = false) ∧
      (tbl.elements (tbl.erase_sync t p).1).Perm (tbl.elements t)

/-! ### A concrete slot table: bounded probing in a neighbourhood -/

/-- Positions that an element with home bucket `home` may occupy in a table of `cap` slots:
the `H` slots starting at `home`, wrapping around. -/
def probe_positions (H cap home : Nat) : List Nat :=
  (List.range H).map (fun i => (home + i) % cap)

/-- First position of the list whose slot exists and is empty. -/
def first_free {E : Type} (t : List (Option E)) : List Nat → Option Nat
  | [] => none
  | i :: rest =>
    match t[i]? with
    | some none => some i
    | _ => first_free t rest

/-- Slot predicate: the slot holds an element equal to the probe. -/
def slot_matches {E : Type} (equalfun : E → E → Bool) (p : E) : Option E → Bool
  | some e => equalfun e p
  | none => false

/-- Index of the first slot that holds an element equal to the probe. -/
def find_slot {E : Type} (equalfun : E → E → Bool) (p : E) : List (Option E) → Option Nat
  | [] => none
  | s :: rest =>
    if slot_matches equalfun p s then some 0 else (find_slot equalfun p rest).map (· + 1)

/-- Slot predicate: the slot holds an element that satisfies `pred`. -/
def slot_holds {E : Type} (pred : E → Bool) : Option E → Bool
  | some e => pred e
  | none => false

/-- Index of the first slot that holds an element satisfying `pred`. -/
def find_slot_where {E : Type} (pred : E → Bool) : List (Option E) → Option Nat
  | [] => none
  | s :: rest =>
    if slot_holds pred s then some 0 else (find_slot_where pred rest).map (· + 1)

/-- Modelled from the spec: a fixed-capacity open-addressing slot table (the glossary's
"Slot Table ... placement may fail when full or structurally constrained"), one of the schemes
that the design notes allow (bounded linear probing). The state is the array of slots; an
element is placed in the first empty slot among the `H` slots of its neighbourhood, which starts
at `hashfun x % capacity`, and placement fails when they are all taken. The capacity is the
requested one. `erase_sync` removes the first element that its key probe designates, as told
by `probe_equal`. -/
def probe_table {E P : Type} (H : Nat) (hashfun : E → Nat) (equalfun : E → E → Bool)
    (probe_equal : E → P → Bool) : hopscotch_table E P (List (Option E)) where
  create := fun n => List.replicate n none
  size := fun t => (t.filterMap id).length
  capacity := fun t => t.length
  elements := fun t => t.filterMap id
  find := fun t p => (t.filterMap id).find? (fun e => equalfun e p)
  insert := fun t x =>
    match first_free t (probe_positions H t.length (hashfun x)) with
    | some i => (t.set i (some x), some x)
    | none => (t, none)
  erase := fun t p =>
    match find_slot equalfun p t with
    | some i => (t.set i none, true)
    | none => (t, false)
  clear := fun t => List.replicate t.length none
  assign := fun t p x =>
    match find_slot equalfun p t with
    | some i => t.set i (some x)
    | none => t
  put_sync := fun t x =>
    match find_slot equalfun x t with
    | some i => (t.set i (some x), true)
    | none =>
      match first_free t (probe_positions H t.length (hashfun x)) with
      | some i => (t.set i (some x), true)
      | none => (t, false)
  get_sync := fun t p =>
    match (t.filterMap id).find? (fun e => equalfun e p) with
    | some e => (true, e)
    | none => (false, p)
  erase_sync := fun t p =>
    match find_slot_where (fun e => probe_equal e p) t with
    | some i => (t.set i none, true)
    | none => (t, false)

/-! ## The map -/

/-- Modelled from the spec: the reader/writer spinlock `spinrwlock2` (declared in
`graphlab/parallel/pthread_tools.hpp`, not among the sources), as seen by one thread:
the number of read holds and whether the write hold is taken. -/
structure spinrwlock2 where
  readers : Nat
  writer : Bool
  deriving DecidableEq, Repr

/-- Modelled from the spec: `spinrwlock2::readlock`. -/
def spinrwlock2.readlock (l : spinrwlock2) : spinrwlock2 :=
  { l with readers := l.readers + 1 }

/-- Modelled from the spec: `spinrwlock2::rdunlock`. -/
def spinrwlock2.rdunlock (l : spinrwlock2) : spinrwlock2 :=
  { l with readers := l.readers - 1 }

/-- Modelled from the spec: `spinrwlock2::writelock`. -/
def spinrwlock2.writelock (l : spinrwlock2) : spinrwlock2 :=
  { l with writer := true }

/-- Modelled from the spec: `spinrwlock2::wrunlock`. -/
def spinrwlock2.wrunlock (l : spinrwlock2) : spinrwlock2 :=
  { l with writer := false }

/-- Steps recorded in the history of a map: the four lock operations, the replacement of the
table pointer (`std::swap(container, newcontainer)` or an assignment to `container`) and the
destruction of a table (`delete`). -/
inductive map_event where
  | readlock
  | rdunlock
  | writelock
  | wrunlock
  | swap
  | destroy
  deriving DecidableEq, Repr

/-- The template arguments of `hopscotch_map<Key, Value, Synchronized, Hash, KeyEqual>`, together
with the slot table class template that `container_type` instantiates. -/
structure template_args (K V T : Type) where
  Synchronized : Bool
  Hash : K → Nat
  KeyEqual : K → K → Bool
  table : (K × V → Nat) → (K × V → K × V → Bool) → hopscotch_table (K × V) K T

/-- The typedef `container_type`: the slot table over `std::pair<Key, Value>` with the
redirected functors. -/
def container_type {K V T : Type} (cfg : template_args K V T) :
    hopscotch_table (K × V) K T :=
  cfg.table (hash_redirect cfg.Hash) (key_equal_redirect cfg.KeyEqual)

/-- The data members of `hopscotch_map`: the owned table and the lock. `history` is a ghost
field recording lock operations, pointer replacements and deletions in program order.
`observed` is a second ghost field: for every step of a synchronized operation, the step
together with the lock and the table that the map holds right after it. -/
structure hopscotch_map (K V T : Type) where
  container : T
  lock : spinrwlock2
  history : List map_event
  observed : List (map_event × spinrwlock2 × T) := []

namespace hopscotch_map

variable {K V T : Type}

/-- The member `create_new_container(size)`. -/
def create_new_container (cfg : template_args K V T) (size : Nat) : T :=
  (container_type cfg).create size

/-- The constructor `hopscotch_map(hashfun, equalfun)`. -/
def new (cfg : template_args K V T) : hopscotch_map K V T :=
  { container := create_new_container cfg 32, lock := { readers := 0, writer := false },
    history := [] }

/-- The member `size()`. -/
def size (cfg : template_args K V T) (m : hopscotch_map K V T) : Nat :=
  (container_type cfg).size m.container

/-- The member `capacity()`. -/
def capacity (cfg : template_args K V T) (m : hopscotch_map K V T) : Nat :=
  (container_type cfg).capacity m.container

/-- The iteration from `begin()` to `end()`. -/
def entries (cfg : template_args K V T) (m : hopscotch_map K V T) : List (K × V) :=
  (container_type cfg).elements m.container

/-- The loop of `rehash_to_new_container`: every entry of the old table is inserted into
`newcontainer`; the assertion fails (`none`) as soon as one insertion returns `end()`. -/
def reinsert_all (cfg : template_args K V T) : List (K × V) → T → Option T
  | [], newcontainer => some newcontainer
  | e :: rest, newcontainer =>
    match (container_type cfg).insert newcontainer e with
    | (nc, some _) => reinsert_all cfg rest nc
    | (_, none) => none

/-- The member `rehash_to_new_container(newsize)`; the default argument `(size_t)(-1)` is passed
as `SIZE_MAX` and stands for `container->size() * 2`. -/
def rehash_to_new_container (cfg : template_args K V T) (m : hopscotch_map K V T)
    (newsize : Nat) : Option T :=
  let newsize := if newsize = SIZE_MAX then (size cfg m * 2) % 2 ^ 64 else newsize
  reinsert_all cfg (entries cfg m) (create_new_container cfg newsize)

/-- The member `do_insert(v)`: the low-level insertion, without a duplicate check. The result is
`none` when an assertion fails, otherwise the map and the returned iterator. -/
def do_insert (cfg : template_args K V T) (m : hopscotch_map K V T) (v : K × V) :
    Option (hopscotch_map K V T × Option (K × V)) :=
  match (container_type cfg).insert m.container v with
  | (c, some it) => some ({ m with container := c }, some it)
  | (c, none) =>
    match rehash_to_new_container cfg { m with container := c } SIZE_MAX with
    | none => none
    | some newcontainer =>
      match (container_type cfg).insert newcontainer v with
      | (nc, some it) =>
        some ({ m with container := nc,
                       history := m.history ++ [map_event.swap, map_event.destroy] }, some it)
      | (_, none) => none

/-- The member `rehash(s)`. -/
def rehash (cfg : template_args K V T) (m : hopscotch_map K V T) (s : Nat) :
    Option (hopscotch_map K V T) :=
  if s > capacity cfg m then
    match rehash_to_new_container cfg m s with
    | none => none
    | some newcontainer =>
      some { m with container := newcontainer,
                    history := m.history ++ [map_event.swap, map_event.destroy] }
  else some m

/-- The member `find(k)`: probes the table with `value_type(k, mapped_type())`. -/
def find [Inhabited V] (cfg : template_args K V T) (m : hopscotch_map K V T) (k : K) :
    Option (K × V) :=
  (container_type cfg).find m.container (k, default)

/-- The member `insert(v)`: the iterator and the `inserted` flag, or `none` on abort. -/
def insert [Inhabited V] (cfg : template_args K V T) (m : hopscotch_map K V T) (v : K × V) :
    Option (hopscotch_map K V T × Option (K × V) × Bool) :=
  match find cfg m v.1 with
  | some i => some (m, some i, false)
  | none =>
    match do_insert cfg m v with
    | none => none
    | some (m', it) => some (m', it, true)

/-- The member `erase(k)`. -/
def erase [Inhabited V] (cfg : template_args K V T) (m : hopscotch_map K V T) (k : K) :
    hopscotch_map K V T × Bool :=
  let r := (container_type cfg).erase m.container (k, default)
  ({ m with container := r.1 }, r.2)

/-- The member `operator[](i)`, read through the returned reference: the map afterwards and the
value referred to. `none` is an abort, or the dereference of `end()`. -/
def index [Inhabited V] (cfg : template_args K V T) (m : hopscotch_map K V T) (i : K) :
    Option (hopscotch_map K V T × V) :=
  match find cfg m i with
  | some e => some (m, e.2)
  | none =>
    match do_insert cfg m (i, default) with
    | none => none
    | some (_, none) => none
    | some (m', some e) => some (m', e.2)

/-- The statement `(*this)[i] = x`: `operator[](i)` followed by the write of `x` into the
`second` component of the entry that the returned reference belongs to; the iterator `iter` of
`operator[]` was obtained for the probe `(i, mapped_type())`, by `find` or by `do_insert`. -/
def index_assign [Inhabited V] (cfg : template_args K V T) (m : hopscotch_map K V T) (i : K)
    (x : V) : Option (hopscotch_map K V T) :=
  match find cfg m i with
  | some e =>
    some { m with container := (container_type cfg).assign m.container (i, default) (e.1, x) }
  | none =>
    match do_insert cfg m (i, default) with
    | none => none
    | some (_, none) => none
    | some (m', some e) =>
      some { m' with
        container := (container_type cfg).assign m'.container (i, default) (e.1, x) }

/-- The member `clear()`. -/
def clear (cfg : template_args K V T) (m : hopscotch_map K V T) : hopscotch_map K V T :=
  { m with container := create_new_container cfg 128,
           history := m.history ++ [map_event.destroy, map_event.swap] }

/-! ### Serialization -/

/-- An item of an archive (`oarchive` / `iarchive`): an integer or an encoded entry. -/
inductive archive_item (E : Type) where
  | num : Nat → archive_item E
  | entry : E → archive_item E

/-- Ways in which an operation can stop without a result: a failed assertion, or a truncated or
malformed archive. -/
inductive failure where
  | abort
  | decode
  deriving DecidableEq, Repr

/-- The member `save(oarc)`: the items written to the archive. -/
def save (cfg : template_args K V T) (m : hopscotch_map K V T) : List (archive_item (K × V)) :=
  [archive_item.num (size cfg m), archive_item.num (capacity cfg m)] ++
    (entries cfg m).map archive_item.entry

/-- The loop of `load`: reads `s` entries and inserts each with `insert`. -/
def load_entries [Inhabited V] (cfg : template_args K V T) :
    Nat → hopscotch_map K V T → List (archive_item (K × V)) → Except failure (hopscotch_map K V T)
  | 0, m, _ => Except.ok m
  | s + 1, m, archive_item.entry v :: rest =>
    match insert cfg m v with
    | none => Except.error failure.abort
    | some (m', _) => load_entries cfg s m' rest
  | _ + 1, _, _ => Except.error failure.decode

/-- The member `load(iarc)`, reading the archive `items`. -/
def load [Inhabited V] (cfg : template_args K V T) (m : hopscotch_map K V T)
    (items : List (archive_item (K × V))) : Except failure (hopscotch_map K V T) :=
  match items with
  | archive_item.num s :: archive_item.num c :: rest =>
    if capacity cfg m ≠ c then
      load_entries cfg s
        { m with container := create_new_container cfg c,
                 history := m.history ++ [map_event.destroy, map_event.swap] } rest
    else
      load_entries cfg s { m with container := (container_type cfg).clear m.container } rest
  | _ => Except.error failure.decode

/-! ### Synchronized operations -/

/-- Acquire or release on the lock of the map, recorded in the history; the step is also
recorded in `observed`, with the lock as the step leaves it and the table held at that point. -/
def lock_step (m : hopscotch_map K V T) (ev : map_event) : hopscotch_map K V T :=
  match ev with
  | map_event.readlock =>
    { m with lock := m.lock.readlock, history := m.history ++ [ev],
             observed := m.observed ++ [(ev, m.lock.readlock, m.container)] }
  | map_event.rdunlock =>
    { m with lock := m.lock.rdunlock, history := m.history ++ [ev],
             observed := m.observed ++ [(ev, m.lock.rdunlock, m.container)] }
  | map_event.writelock =>
    { m with lock := m.lock.writelock, history := m.history ++ [ev],
             observed := m.observed ++ [(ev, m.lock.writelock, m.container)] }
  | map_event.wrunlock =>
    { m with lock := m.lock.wrunlock, history := m.history ++ [ev],
             observed := m.observed ++ [(ev, m.lock.wrunlock, m.container)] }
  | _ =>
    { m with history := m.history ++ [ev],
             observed := m.observed ++ [(ev, m.lock, m.container)] }

/-- The member `put_sync(v)`; `none` when an assertion fails. Each lock operation, the pointer
swap and the deletion of the old table are steps of `lock_step`, in the order of the source. -/
def put_sync [Inhabited V] (cfg : template_args K V T) (m : hopscotch_map K V T) (v : K × V) :
    Option (hopscotch_map K V T) :=
  if !cfg.Synchronized then index_assign cfg m v.1 v.2
  else
    let m1 : hopscotch_map K V T := lock_step m map_event.readlock
    match (container_type cfg).put_sync m1.container v with
    | (c, true) =>
      let m2 : hopscotch_map K V T := { m1 with container := c }
      some (lock_step m2 map_event.rdunlock)
    | (c, false) =>
      let m2 : hopscotch_map K V T :=
        lock_step (lock_step { m1 with container := c } map_event.rdunlock) map_event.writelock
      match (container_type cfg).insert m2.container v with
      | (c2, some _) =>
        let m3 : hopscotch_map K V T := { m2 with container := c2 }
        some (lock_step m3 map_event.wrunlock)
      | (c2, none) =>
        let m3 : hopscotch_map K V T := { m2 with container := c2 }
        match rehash_to_new_container cfg m3 SIZE_MAX with
        | none => none
        | some newcontainer =>
          match (container_type cfg).insert newcontainer v with
          | (nc, some _) =>
            let m4 : hopscotch_map K V T := { m3 with container := nc }
            some (lock_step (lock_step (lock_step m4 map_event.swap) map_event.wrunlock)
              map_event.destroy)
          | (_, none) => none

/-- The member `get_sync(k)`: the map afterwards (only its lock and history can differ) and the
returned pair; the pair is `none` when the value is read through `end()`. -/
def get_sync [Inhabited V] (cfg : template_args K V T) (m : hopscotch_map K V T) (k : K) :
    hopscotch_map K V T × Option (Bool × V) :=
  if !cfg.Synchronized then
    match find cfg m k with
    | none => (m, none)
    | some e => (m, some (false, e.2))
  else
    let m1 := lock_step m map_event.readlock
    let v := (container_type cfg).get_sync m1.container (k, default)
    (lock_step m1 map_event.rdunlock, some (v.1, v.2.2))

/-- The member `erase_sync(k)`; the synchronized branch passes the key `k` itself to the
table's `erase_sync`. -/
def erase_sync [Inhabited V] (cfg : template_args K V T) (m : hopscotch_map K V T) (k : K) :
    hopscotch_map K V T × Bool :=
  if !cfg.Synchronized then erase cfg m k
  else
    let m1 := lock_step m map_event.readlock
    let ret := (container_type cfg).erase_sync m1.container k
    (lock_step { m1 with container := ret.1 } map_event.rdunlock, ret.2)

/-! ### Sequences of calls -/

/-- A point operation with its arguments. -/
inductive point_op (K V : Type) where
  | put : K → V → point_op K V
  | get : K → point_op K V
  | del : K → point_op K V

/-- Runs a sequence of `put_sync` / `get_sync` / `erase_sync` calls; `none` when the run does
not complete: on abort, and when a `get_sync` reads its value through `end()`. -/
def run_sync [Inhabited V] (cfg : template_args K V T) :
    hopscotch_map K V T → List (point_op K V) → Option (hopscotch_map K V T)
  | m, [] => some m
  | m, point_op.put k v :: rest =>
    match put_sync cfg m (k, v) with
    | none => none
    | some m' => run_sync cfg m' rest
  | m, point_op.get k :: rest =>
    match get_sync cfg m k with
    | (_, none) => none
    | (m', some _) => run_sync cfg m' rest
  | m, point_op.del k :: rest => run_sync cfg (erase_sync cfg m k).1 rest

/-- Runs the corresponding sequence of `insert` / `find` / `erase` calls; `none` on abort. -/
def run_plain [Inhabited V] (cfg : template_args K V T) :
    hopscotch_map K V T → List (point_op K V) → Option (hopscotch_map K V T)
  | m, [] => some m
  | m, point_op.put k v :: rest =>
    match insert cfg m (k, v) with
    | none => none
    | some (m', _) => run_plain cfg m' rest
  | m, point_op.get _ :: rest => run_plain cfg m rest
  | m, point_op.del k :: rest => run_plain cfg (erase cfg m k).1 rest

/-- Runs a sequence of `insert(v)` calls; `none` on abort. -/
def insert_all [Inhabited V] (cfg : template_args K V T) :
    hopscotch_map K V T → List (K × V) → Option (hopscotch_map K V T)
  | m, [] => some m
  | m, v :: rest =>
    match insert cfg m v with
    | none => none
    | some (m', _) => insert_all cfg m' rest

end hopscotch_map

/-! ## Assumptions and invariants -/

/-- The assumptions under which the map is analysed: the slot table honours its contract for the
redirected equality, a key probe designating the elements whose key `KeyEqual` equates with
it, and `KeyEqual` decides equality of keys (the default `std::equal_to<Key>`). -/
def template_args.Lawful {K V T : Type} (cfg : template_args K V T) : Prop :=
  (container_type cfg).Lawful (key_equal_redirect cfg.KeyEqual)
      (fun e k => cfg.KeyEqual e.1 k) ∧
    ∀ a b : K, cfg.KeyEqual a b = true ↔ a = b

/-- The data-model invariant "no duplicate keys among live entries". -/
def hopscotch_map.nodup_keys {K V T : Type} (cfg : template_args K V T)
    (m : hopscotch_map K V T) : Prop :=
  ((hopscotch_map.entries cfg m).map Prod.fst).Nodup

/-- Template arguments used to run the map on concrete inputs: natural numbers as keys and
values, the identity as hash function, equality of naturals, and the bounded-probing table with
neighbourhood size `H`. -/
def nat_args (Synchronized : Bool) (H : Nat) : template_args Nat Nat (List (Option (Nat × Nat))) :=
  { Synchronized := Synchronized
    Hash := fun k => k
    KeyEqual := fun a b => decide (a = b)
    table := fun hashfun equalfun => probe_table H hashfun equalfun (fun e k => decide (e.1 = k)) }

/-- Example state: the map obtained from a new map over `nat_args false 2` by inserting
`(0, 10)`, `(32, 11)` and `(2, 12)`; slots 0, 1 and 2 of its 32 slots are taken, so that the
neighbourhood of home bucket 1 is full. -/
def example_small : hopscotch_map Nat Nat (List (Option (Nat × Nat))) :=
  { container := [some (0, 10), some (32, 11), some (2, 12)] ++ List.replicate 29 none
    lock := { readers := 0, writer := false }
    history := [] }

/-- Example state: `example_small` after `insert((1, 13))`, which resizes the table. -/
def example_grown : hopscotch_map Nat Nat (List (Option (Nat × Nat))) :=
  { container := [some (0, 10), some (1, 13), some (32, 11), some (2, 12), none, none]
    lock := { readers := 0, writer := false }
    history := [map_event.swap, map_event.destroy] }

/-- Example state: the result of loading the archive written by `save` for `example_grown`
into a new map. -/
def example_loaded : hopscotch_map Nat Nat (List (Option (Nat × Nat))) :=
  { container := [some (0, 10), some (1, 13), some (32, 11), some (2, 12), none, none]
    lock := { readers := 0, writer := false }
    history := [map_event.destroy, map_event.swap] }

/-! ### The key→value state described by a sequence of calls -/

/-- Test on a pair: its key differs from `k`. -/
def key_ne {K V : Type} [DecidableEq K] (k : K) (e : K × V) : Bool :=
  decide (e.1 ≠ k)

/-- Association list after a put that overwrites: the pair `(k, v)` replaces any pair with
key `k`. -/
def assoc_put {K V : Type} [DecidableEq K] (s : List (K × V)) (k : K) (v : V) : List (K × V) :=
  (k, v) :: s.filter (key_ne k)

/-- Association list after an insert that keeps a present key as it is. -/
def assoc_insert {K V : Type} [DecidableEq K] (s : List (K × V)) (k : K) (v : V) :
    List (K × V) :=
  if s.all (key_ne k) then (k, v) :: s else s

/-- Association list after the removal of key `k`. -/
def assoc_del {K V : Type} [DecidableEq K] (s : List (K × V)) (k : K) : List (K × V) :=
  s.filter (key_ne k)

/-- The association list that a sequence of `put_sync` / `get_sync` / `erase_sync` calls
describes when a put overwrites. -/
def assoc_run_sync {K V : Type} [DecidableEq K] :
    List (K × V) → List (hopscotch_map.point_op K V) → List (K × V)
  | s, [] => s
  | s, hopscotch_map.point_op.put k v :: rest => assoc_run_sync (assoc_put s k v) rest
  | s, hopscotch_map.point_op.get _ :: rest => assoc_run_sync s rest
  | s, hopscotch_map.point_op.del k :: rest => assoc_run_sync (assoc_del s k) rest

/-- The association list that the corresponding sequence of `insert` / `find` / `erase` calls
describes. -/
def assoc_run_plain {K V : Type} [DecidableEq K] :
    List (K × V) → List (hopscotch_map.point_op K V) → List (K × V)
  | s, [] => s
  | s, hopscotch_map.point_op.put k v :: rest => assoc_run_plain (assoc_insert s k v) rest
  | s, hopscotch_map.point_op.get _ :: rest => assoc_run_plain s rest
  | s, hopscotch_map.point_op.del k :: rest => assoc_run_plain (assoc_del s k) rest

/-- No put of the sequence, started in state `s`, changes the value of a key that is present
at that point: every pair stored under the key of a put already carries the value that is
put. -/
def no_overwrite {K V : Type} [DecidableEq K] [DecidableEq V] :
    List (K × V) → List (hopscotch_map.point_op K V) → Bool
  | _, [] => true
  | s, hopscotch_map.point_op.put k v :: rest =>
    s.all (fun e => key_ne k e || decide (e.2 = v)) && no_overwrite (assoc_put s k v) rest
  | s, hopscotch_map.point_op.get _ :: rest => no_overwrite s rest
  | s, hopscotch_map.point_op.del k :: rest => no_overwrite (assoc_del s k) rest

/-- Runs a sequence of `erase(k)` calls. -/
def hopscotch_map.erase_all {K V T : Type} [Inhabited V] (cfg : template_args K V T) :
    hopscotch_map K V T → List K → hopscotch_map K V T
  | m, [] => m
  | m, k :: rest => hopscotch_map.erase_all cfg (hopscotch_map.erase cfg m k).1 rest

/-- Example input: the hundred pairs `(k, k + 1000)` for the keys 0 to 99, in the order
0, .., 49, 64, 50, .., 63, 65, .., 99. -/
def scenario_pairs : List (Nat × Nat) :=
  (List.range 50 ++ [64] ++ List.range' 50 14 ++ List.range' 65 35).map (fun k => (k, k + 1000))

/-- Example state: the map obtained from a new map over `nat_args false 2` by inserting
`(30, 1)`, `(94, 2)` and `(31, 3)`; the keys 30 and 94 share bucket 30 and fill its
neighbourhood, and the neighbourhood of bucket 31 wraps around, so that `(31, 3)` sits in slot 0
and comes first in the iteration. -/
def example_wrapped : hopscotch_map Nat Nat (List (Option (Nat × Nat))) :=
  { container := [some (31, 3)] ++ List.replicate 29 none ++ [some (30, 1), some (94, 2)]
    lock := { readers := 0, writer := false }
    history := [] }

/-- Example state: the map obtained from a new map over `nat_args false 2` by inserting
`(0, 1)` and `(64, 2)`, which fill the neighbourhood of bucket 0. -/
def example_pair : hopscotch_map Nat Nat (List (Option (Nat × Nat))) :=
  { container := [some (0, 1), some (64, 2)] ++ List.replicate 30 none
    lock := { readers := 0, writer := false }
    history := [] }

section probe_table_contract

variable {E P : Type}

theorem filterMap_set_free (x : E) :
    ∀ (t : List (Option E)) (i : Nat), t[i]? = some none →
      ((t.set i (some x)).filterMap id).Perm (x :: t.filterMap id)
  | [], i, h => by simp at h
  | s :: t, 0, h => by
    simp at h
    subst h
    simp
  | none :: t, i + 1, h => by
    simp at h
    simpa using filterMap_set_free x t i (by simpa using h)
  | some a :: t, i + 1, h => by
    simp at h
    have ih := filterMap_set_free x t i (by simpa using h)
    simpa using (List.Perm.cons a ih).trans (List.Perm.swap x a _)

theorem filterMap_set_taken (x e : E) :
    ∀ (t : List (Option E)) (i : Nat), t[i]? = some (some e) →
      ∃ rest, (t.filterMap id).Perm (e :: rest) ∧
        ((t.set i (some x)).filterMap id).Perm (x :: rest) ∧
        ((t.set i none).filterMap id).Perm rest
  | [], i, h => by simp at h
  | s :: t, 0, h => by
    simp at h
    subst h
    exact ⟨t.filterMap id, by simp, by simp, by simp⟩
  | none :: t, i + 1, h => by
    simp at h
    obtain ⟨rest, h1, h2, h3⟩ := filterMap_set_taken x e t i (by simpa using h)
    exact ⟨rest, by simpa using h1, by simpa using h2, by simpa using h3⟩
  | some a :: t, i + 1, h => by
    simp at h
    obtain ⟨rest, h1, h2, h3⟩ := filterMap_set_taken x e t i (by simpa using h)
    refine ⟨a :: rest, ?_, ?_, ?_⟩
    · simpa using (List.Perm.cons a h1).trans (List.Perm.swap e a _)
    · simpa using (List.Perm.cons a h2).trans (List.Perm.swap x a _)
    · simpa using h3

theorem first_free_spec (t : List (Option E)) :
    ∀ (ps : List Nat) (i : Nat), first_free t ps = some i → t[i]? = some none
  | [], i, h => by simp [first_free] at h
  | j :: ps, i, h => by
    unfold first_free at h
    split at h
    · rename_i hj
      simp at h
      subst h
      exact hj
    · exact first_free_spec t ps i h

theorem find_slot_some (equalfun : E → E → Bool) (p : E) :
    ∀ (t : List (Option E)) (i : Nat), find_slot equalfun p t = some i →
      ∃ e, t[i]? = some (some e) ∧ (t.filterMap id).find? (fun e => equalfun e p) = some e
  | [], i, h => by simp [find_slot] at h
  | none :: t, i, h => by
    simp [find_slot, slot_matches] at h
    obtain ⟨j, hj, rfl⟩ := h
    obtain ⟨e, h1, h2⟩ := find_slot_some equalfun p t j hj
    exact ⟨e, by simpa using h1, by simpa using h2⟩
  | some a :: t, i, h => by
    by_cases ha : equalfun a p = true
    · simp [find_slot, slot_matches, ha] at h
      subst h
      exact ⟨a, by simp, by simp [List.find?, ha]⟩
    · simp [find_slot, slot_matches, ha] at h
      obtain ⟨j, hj, rfl⟩ := h
      obtain ⟨e, h1, h2⟩ := find_slot_some equalfun p t j hj
      exact ⟨e, by simpa using h1, by simpa [List.find?, ha] using h2⟩

theorem find_slot_none (equalfun : E → E → Bool) (p : E) :
    ∀ (t : List (Option E)), find_slot equalfun p t = none →
      ∀ e ∈ t.filterMap id, equalfun e p = false
  | [], _ => by simp
  | none :: t, h => by
    simp [find_slot, slot_matches] at h
    simpa using find_slot_none equalfun p t h
  | some a :: t, h => by
    by_cases ha : equalfun a p = true
    · simp [find_slot, slot_matches, ha] at h
    · simp [find_slot, slot_matches, ha] at h
      have ih := find_slot_none equalfun p t h
      intro e he
      simp at he
      rcases he with rfl | he
      · simpa using ha
      · exact ih e (by simpa using he)

theorem find_slot_where_some (pred : E → Bool) :
    ∀ (t : List (Option E)) (i : Nat), find_slot_where pred t = some i →
      ∃ e, t[i]? = some (some e) ∧ pred e = true
  | [], i, h => by simp [find_slot_where] at h
  | none :: t, i, h => by
    simp [find_slot_where, slot_holds] at h
    obtain ⟨j, hj, rfl⟩ := h
    obtain ⟨e, h1, h2⟩ := find_slot_where_some pred t j hj
    exact ⟨e, by simpa using h1, h2⟩
  | some a :: t, i, h => by
    by_cases ha : pred a = true
    · simp [find_slot_where, slot_holds, ha] at h
      subst h
      exact ⟨a, by simp, ha⟩
    · simp [find_slot_where, slot_holds, ha] at h
      obtain ⟨j, hj, rfl⟩ := h
      obtain ⟨e, h1, h2⟩ := find_slot_where_some pred t j hj
      exact ⟨e, by simpa using h1, h2⟩

theorem find_slot_where_none (pred : E → Bool) :
    ∀ (t : List (Option E)), find_slot_where pred t = none →
      ∀ e ∈ t.filterMap id, pred e = false
  | [], _ => by simp
  | none :: t, h => by
    simp [find_slot_where, slot_holds] at h
    simpa using find_slot_where_none pred t h
  | some a :: t, h => by
    by_cases ha : pred a = true
    · simp [find_slot_where, slot_holds, ha] at h
    · simp [find_slot_where, slot_holds, ha] at h
      have ih := find_slot_where_none pred t h
      intro e he
      simp at he
      rcases he with rfl | he
      · simpa using ha
      · exact ih e (by simpa using he)

theorem probe_table_erase_true (H : Nat) (hashfun : E → Nat) (equalfun : E → E → Bool)
    (probe_equal : E → P → Bool) (t : List (Option E)) (p : E) (h : ((probe_table H hashfun equalfun probe_equal).erase t p).2 = true) :
    ∃ e, equalfun e p = true ∧
      (t.filterMap id).Perm (e :: (((probe_table H hashfun equalfun probe_equal).erase t p).1).filterMap id) := by
  simp only [probe_table] at h ⊢
  cases hs : find_slot equalfun p t with
  | none => simp [hs] at h
  | some i =>
    obtain ⟨e, h1, h2⟩ := find_slot_some equalfun p t i hs
    obtain ⟨rest, r1, _, r3⟩ := filterMap_set_taken e e t i h1
    refine ⟨e, by simpa using List.find?_some h2, ?_⟩
    simpa using r1.trans (List.Perm.cons e r3.symm)

theorem probe_table_erase_false (H : Nat) (hashfun : E → Nat) (equalfun : E → E → Bool)
    (probe_equal : E → P → Bool) (t : List (Option E)) (p : E) (h : ((probe_table H hashfun equalfun probe_equal).erase t p).2 = false) :
    (∀ e ∈ t.filterMap id, equalfun e p = false) ∧
      ((((probe_table H hashfun equalfun probe_equal).erase t p).1).filterMap id).Perm (t.filterMap id) := by
  simp only [probe_table] at h ⊢
  cases hs : find_slot equalfun p t with
  | none => exact ⟨find_slot_none equalfun p t hs, by simp⟩
  | some i => simp [hs] at h

theorem probe_table_lawful (H : Nat) (hashfun : E → Nat) (equalfun : E → E → Bool)
    (probe_equal : E → P → Bool) :
    (probe_table H hashfun equalfun probe_equal).Lawful equalfun probe_equal where
  size_eq := fun _ => rfl
  create_elements := fun n => by simp [probe_table]
  create_capacity := fun n => by simp [probe_table]
  find_some := fun t p e h => by
    simp only [probe_table] at h ⊢
    exact ⟨List.mem_of_find?_eq_some h, by simpa using List.find?_some h⟩
  find_none := fun t p h => by
    simp only [probe_table] at h ⊢
    intro e he
    have := List.find?_eq_none.1 h e he
    simpa using this
  insert_capacity := fun t x => by
    simp only [probe_table]
    split <;> simp
  insert_some := fun t x it h => by
    simp only [probe_table] at h ⊢
    cases hf : first_free t (probe_positions H t.length (hashfun x)) with
    | none => simp [hf] at h
    | some i =>
      simp [hf] at h
      exact ⟨h.symm, by simpa using filterMap_set_free x t i (first_free_spec t _ i hf)⟩
  insert_none := fun t x h => by
    simp only [probe_table] at h ⊢
    cases hf : first_free t (probe_positions H t.length (hashfun x)) with
    | none => simp
    | some i => simp [hf] at h
  erase_capacity := fun t p => by
    simp only [probe_table]
    split <;> simp
  erase_true := probe_table_erase_true H hashfun equalfun probe_equal
  erase_false := probe_table_erase_false H hashfun equalfun probe_equal
  clear_elements := fun t => by simp [probe_table]
  clear_capacity := fun t => by simp [probe_table]
  assign_capacity := fun t p x => by
    simp only [probe_table]
    split <;> simp
  assign_found := fun t p x e h => by
    simp only [probe_table] at h ⊢
    cases hs : find_slot equalfun p t with
    | none =>
      have := find_slot_none equalfun p t hs e (List.mem_of_find?_eq_some h)
      have h2 := List.find?_some h
      simp [this] at h2
    | some i =>
      obtain ⟨e', h1, h2⟩ := find_slot_some equalfun p t i hs
      rw [h] at h2
      cases h2
      obtain ⟨rest, r1, r2, _⟩ := filterMap_set_taken x e t i h1
      exact ⟨rest, r1, by simpa using r2⟩
  put_sync_capacity := fun t x => by
    simp only [probe_table]
    split
    · simp
    · split <;> simp
  put_sync_true := fun t x h => by
    simp only [probe_table] at h ⊢
    cases hs : find_slot equalfun x t with
    | some i =>
      obtain ⟨e, h1, h2⟩ := find_slot_some equalfun x t i hs
      obtain ⟨rest, r1, r2, _⟩ := filterMap_set_taken x e t i h1
      exact Or.inl ⟨e, rest, by simpa using List.find?_some h2, r1, by simpa using r2⟩
    | none =>
      cases hf : first_free t (probe_positions H t.length (hashfun x)) with
      | none => simp [hs, hf] at h
      | some i =>
        exact Or.inr ⟨find_slot_none equalfun x t hs,
          by simpa using filterMap_set_free x t i (first_free_spec t _ i hf)⟩
  put_sync_false := fun t x h => by
    simp only [probe_table] at h ⊢
    cases hs : find_slot equalfun x t with
    | some i => simp [hs] at h
    | none =>
      cases hf : first_free t (probe_positions H t.length (hashfun x)) with
      | none => exact ⟨find_slot_none equalfun x t hs, by simp⟩
      | some i => simp [hs, hf] at h
  get_sync_true := fun t p h => by
    simp only [probe_table] at h ⊢
    cases hf : (t.filterMap id).find? (fun e => equalfun e p) with
    | none => simp [hf] at h
    | some e =>
      simp only []
      exact ⟨List.mem_of_find?_eq_some hf, by simpa using List.find?_some hf⟩
  get_sync_false := fun t p h => by
    simp only [probe_table] at h ⊢
    cases hf : (t.filterMap id).find? (fun e => equalfun e p) with
    | none =>
      intro e he
      simpa using List.find?_eq_none.1 hf e he
    | some e => simp [hf] at h
  erase_sync_capacity := fun t p => by
    simp only [probe_table]
    split <;> simp
  erase_sync_true := fun t p h => by
    simp only [probe_table] at h ⊢
    cases hs : find_slot_where (fun e => probe_equal e p) t with
    | none => simp [hs] at h
    | some i =>
      obtain ⟨e, h1, h2⟩ := find_slot_where_some (fun e => probe_equal e p) t i hs
      obtain ⟨rest, r1, _, r3⟩ := filterMap_set_taken e e t i h1
      exact ⟨e, h2, by simpa using r1.trans (List.Perm.cons e r3.symm)⟩
  erase_sync_false := fun t p h => by
    simp only [probe_table] at h ⊢
    cases hs : find_slot_where (fun e => probe_equal e p) t with
    | none => exact ⟨find_slot_where_none (fun e => probe_equal e p) t hs, by simp⟩
    | some i => simp [hs] at h

end probe_table_contract

theorem nat_args_lawful (Synchronized : Bool) (H : Nat) : (nat_args Synchronized H).Lawful :=
  ⟨probe_table_lawful H _ _ _, fun a b => by simp [nat_args]⟩

/-! ## General facts about the map over a lawful table -/

namespace hopscotch_map

section general

variable {K V T : Type} {cfg : template_args K V T}

theorem key_equal_iff (hl : cfg.Lawful) (e p : K × V) :
    key_equal_redirect cfg.KeyEqual e p = true ↔ e.1 = p.1 := by
  simpa [key_equal_redirect] using hl.2 e.1 p.1

theorem key_equal_false_iff (hl : cfg.Lawful) (e p : K × V) :
    key_equal_redirect cfg.KeyEqual e p = false ↔ e.1 ≠ p.1 := by
  rw [← Bool.not_eq_true, key_equal_iff hl e p]

theorem find_some_mem [Inhabited V] (hl : cfg.Lawful) {m : hopscotch_map K V T} {k : K} {e : K × V}
    (h : find cfg m k = some e) : e ∈ entries cfg m ∧ e.1 = k := by
  have := hl.1.find_some m.container (k, default) e h
  exact ⟨this.1, by simpa using (key_equal_iff hl e (k, default)).1 this.2⟩

theorem find_none_not_mem [Inhabited V] (hl : cfg.Lawful) {m : hopscotch_map K V T} {k : K}
    (h : find cfg m k = none) : ∀ e ∈ entries cfg m, e.1 ≠ k := by
  intro e he
  have := hl.1.find_none m.container (k, default) h e he
  simpa using (key_equal_false_iff hl e (k, default)).1 this

theorem find_eq_none [Inhabited V] (hl : cfg.Lawful) {m : hopscotch_map K V T} {k : K}
    (h : ∀ e ∈ entries cfg m, e.1 ≠ k) : find cfg m k = none := by
  cases hf : find cfg m k with
  | none => rfl
  | some e => exact absurd (find_some_mem hl hf).2 (h e (find_some_mem hl hf).1)

theorem nodup_keys_unique {l : List (K × V)} (hn : (l.map Prod.fst).Nodup) {a b : K × V}
    (ha : a ∈ l) (hb : b ∈ l) (hab : a.1 = b.1) : a = b := by
  induction l with
  | nil => simp at ha
  | cons c l ih =>
    simp only [List.map_cons, List.nodup_cons, List.mem_map, not_exists, not_and] at hn
    simp only [List.mem_cons] at ha hb
    rcases ha with rfl | ha <;> rcases hb with rfl | hb
    · rfl
    · exact absurd hab.symm (hn.1 b hb)
    · exact absurd hab (hn.1 a ha)
    · exact ih hn.2 ha hb

theorem find_of_mem [Inhabited V] (hl : cfg.Lawful) {m : hopscotch_map K V T} (hn : nodup_keys cfg m)
    {e : K × V} (he : e ∈ entries cfg m) : find cfg m e.1 = some e := by
  cases hf : find cfg m e.1 with
  | none => exact absurd rfl (find_none_not_mem hl hf e he)
  | some e' =>
    have := find_some_mem hl hf
    rw [nodup_keys_unique hn this.1 he this.2]

theorem find_congr [Inhabited V] (hl : cfg.Lawful) {m m' : hopscotch_map K V T} (hn : nodup_keys cfg m)
    (hp : (entries cfg m').Perm (entries cfg m)) (k : K) : find cfg m' k = find cfg m k := by
  have hn' : nodup_keys cfg m' := (hp.map Prod.fst).nodup_iff.2 hn
  cases hf : find cfg m k with
  | none =>
    exact find_eq_none hl (fun e he => find_none_not_mem hl hf e (hp.subset he))
  | some e =>
    have := find_some_mem hl hf
    rw [← this.2]
    exact find_of_mem hl hn' (hp.symm.subset this.1)

theorem reinsert_all_spec (hl : cfg.Lawful) :
    ∀ (l : List (K × V)) (nc nc' : T), reinsert_all cfg l nc = some nc' →
      ((container_type cfg).elements nc').Perm (l ++ (container_type cfg).elements nc) ∧
        (container_type cfg).capacity nc' = (container_type cfg).capacity nc
  | [], nc, nc', h => by
    simp [reinsert_all] at h
    subst h
    simp
  | e :: l, nc, nc', h => by
    unfold reinsert_all at h
    split at h
    · rename_i c it hi
      have h1 := hl.1.insert_some nc e it (by rw [hi])
      have h2 := hl.1.insert_capacity nc e
      rw [hi] at h1 h2
      obtain ⟨ih1, ih2⟩ := reinsert_all_spec hl l c nc' h
      refine ⟨?_, ih2.trans h2⟩
      exact ih1.trans ((List.Perm.append_left l h1.2).trans List.perm_middle)
    · simp at h

theorem rehash_to_new_container_spec (hl : cfg.Lawful) {m : hopscotch_map K V T} {n : Nat}
    {nc : T} (h : rehash_to_new_container cfg m n = some nc) :
    ((container_type cfg).elements nc).Perm (entries cfg m) ∧
      (container_type cfg).capacity nc = (container_type cfg).capacity
        (create_new_container cfg (if n = SIZE_MAX then (size cfg m * 2) % 2 ^ 64 else n)) := by
  unfold rehash_to_new_container at h
  have := reinsert_all_spec hl _ _ _ h
  refine ⟨?_, this.2⟩
  simpa [create_new_container, hl.1.create_elements] using this.1

theorem do_insert_spec (hl : cfg.Lawful) {m m' : hopscotch_map K V T} {v : K × V}
    {it : Option (K × V)} (h : do_insert cfg m v = some (m', it)) :
    it = some v ∧ (entries cfg m').Perm (v :: entries cfg m) ∧ m'.lock = m.lock := by
  unfold do_insert at h
  split at h
  · rename_i c it' hi
    simp only [Option.some.injEq, Prod.mk.injEq] at h
    obtain ⟨rfl, rfl⟩ := h
    have h1 := hl.1.insert_some m.container v it' (by rw [hi])
    rw [hi] at h1
    exact ⟨by rw [h1.1], h1.2, rfl⟩
  · rename_i c hi
    have h0 := hl.1.insert_none m.container v (by rw [hi])
    rw [hi] at h0
    split at h
    · simp at h
    · rename_i newcontainer hr
      have hr' := (rehash_to_new_container_spec hl hr).1
      split at h
      · rename_i nc it' hi2
        simp only [Option.some.injEq, Prod.mk.injEq] at h
        obtain ⟨rfl, rfl⟩ := h
        have h1 := hl.1.insert_some newcontainer v it' (by rw [hi2])
        rw [hi2] at h1
        refine ⟨by rw [h1.1], ?_, rfl⟩
        exact h1.2.trans (List.Perm.cons v (hr'.trans h0))
      · simp at h

theorem insert_spec [Inhabited V] (hl : cfg.Lawful) {m m' : hopscotch_map K V T} {v : K × V}
    {it : Option (K × V)} {b : Bool} (h : insert cfg m v = some (m', it, b)) :
    (b = false ∧ m' = m ∧ it = find cfg m v.1 ∧ it ≠ none) ∨
      (b = true ∧ find cfg m v.1 = none ∧ it = some v ∧
        (entries cfg m').Perm (v :: entries cfg m) ∧ m'.lock = m.lock) := by
  unfold insert at h
  split at h
  · rename_i i hf
    simp only [Option.some.injEq, Prod.mk.injEq] at h
    obtain ⟨rfl, rfl, rfl⟩ := h
    exact Or.inl ⟨rfl, rfl, hf.symm, by simp⟩
  · rename_i hf
    split at h
    · simp at h
    · rename_i m1 it1 hd
      simp only [Option.some.injEq, Prod.mk.injEq] at h
      obtain ⟨rfl, rfl, rfl⟩ := h
      have := do_insert_spec hl hd
      exact Or.inr ⟨rfl, hf, this.1, this.2.1, this.2.2⟩

theorem nodup_keys_cons [Inhabited V] (hl : cfg.Lawful) {m m' : hopscotch_map K V T}
    {v : K × V} (hn : nodup_keys cfg m) (hf : find cfg m v.1 = none)
    (hp : (entries cfg m').Perm (v :: entries cfg m)) : nodup_keys cfg m' := by
  unfold nodup_keys at hn ⊢
  refine ((hp.map Prod.fst).nodup_iff).2 ?_
  simp only [List.map_cons, List.nodup_cons, List.mem_map, not_exists, not_and]
  exact ⟨fun e he => find_none_not_mem hl hf e he, hn⟩

theorem insert_nodup_keys [Inhabited V] (hl : cfg.Lawful) {m m' : hopscotch_map K V T}
    {v : K × V} {r : Option (K × V) × Bool} (hn : nodup_keys cfg m)
    (h : insert cfg m v = some (m', r)) : nodup_keys cfg m' := by
  rcases insert_spec hl h with ⟨_, rfl, _⟩ | ⟨_, hf, _, hp, _⟩
  · exact hn
  · exact nodup_keys_cons hl hn hf hp

theorem insert_keys [Inhabited V] (hl : cfg.Lawful) {m m' : hopscotch_map K V T}
    {v : K × V} {r : Option (K × V) × Bool} (h : insert cfg m v = some (m', r)) (k : K) :
    k ∈ (entries cfg m').map Prod.fst ↔ k = v.1 ∨ k ∈ (entries cfg m).map Prod.fst := by
  rcases insert_spec hl h with ⟨_, rfl, hit, hne⟩ | ⟨_, _, _, hp, _⟩
  · constructor
    · exact Or.inr
    · rintro (rfl | hk)
      · cases hf : find cfg m' v.1 with
        | none => rw [hf] at hit; exact absurd hit hne
        | some e =>
          have := find_some_mem hl hf
          exact List.mem_map.2 ⟨e, this.1, this.2⟩
      · exact hk
  · rw [(hp.map Prod.fst).mem_iff]
    simp [eq_comm]

theorem insert_all_spec [Inhabited V] (hl : cfg.Lawful) :
    ∀ (vs : List (K × V)) (m m' : hopscotch_map K V T), nodup_keys cfg m →
      insert_all cfg m vs = some m' →
      nodup_keys cfg m' ∧
        ∀ k, k ∈ (entries cfg m').map Prod.fst ↔
          k ∈ (entries cfg m).map Prod.fst ∨ k ∈ vs.map Prod.fst
  | [], m, m', hn, h => by
    simp [insert_all] at h
    subst h
    exact ⟨hn, by simp⟩
  | v :: vs, m, m', hn, h => by
    unfold insert_all at h
    split at h
    · simp at h
    · rename_i m1 r hi
      obtain ⟨h1, h2⟩ := insert_all_spec hl vs m1 m' (insert_nodup_keys hl hn hi) h
      refine ⟨h1, fun k => ?_⟩
      rw [h2 k, insert_keys hl hi k]
      simp only [List.map_cons, List.mem_cons]
      tauto

theorem entries_new (hl : cfg.Lawful) : entries cfg (new cfg) = [] := by
  simp [entries, new, create_new_container, hl.1.create_elements]

theorem insert_all_perm [Inhabited V] (hl : cfg.Lawful) :
    ∀ (vs : List (K × V)) (m m' : hopscotch_map K V T),
      ((vs ++ entries cfg m).map Prod.fst).Nodup → insert_all cfg m vs = some m' →
      (entries cfg m').Perm (vs ++ entries cfg m)
  | [], m, m', _, h => by
    simp [insert_all] at h
    subst h
    simp
  | v :: vs, m, m', hd, h => by
    unfold insert_all at h
    split at h
    · simp at h
    · rename_i m1 r hi
      have hd' : (v.1 :: (vs ++ entries cfg m).map Prod.fst).Nodup := by simpa using hd
      have hv : ∀ e ∈ entries cfg m, e.1 ≠ v.1 := fun e he heq =>
        (List.nodup_cons.1 hd').1
          (List.mem_map.2 ⟨e, List.mem_append_right _ he, heq⟩)
      rcases insert_spec hl hi with ⟨_, _, hit, hne⟩ | ⟨_, _, _, hp, _⟩
      · rw [find_eq_none hl hv] at hit
        exact absurd hit hne
      · have hp1 : (vs ++ entries cfg m1).Perm (v :: (vs ++ entries cfg m)) :=
          (List.Perm.append_left vs hp).trans List.perm_middle
        have hd1 : ((vs ++ entries cfg m1).map Prod.fst).Nodup :=
          ((hp1.map Prod.fst).nodup_iff).2 (by simpa using hd')
        exact (insert_all_perm hl vs m1 m' hd1 h).trans (by simpa using hp1)

theorem load_entries_eq [Inhabited V] :
    ∀ (l : List (K × V)) (m : hopscotch_map K V T),
      load_entries cfg l.length m (l.map archive_item.entry) =
        match insert_all cfg m l with
        | some m' => Except.ok m'
        | none => Except.error failure.abort
  | [], m => by simp [load_entries, insert_all]
  | v :: l, m => by
    simp only [List.length_cons, List.map_cons, load_entries, insert_all]
    cases hi : hopscotch_map.insert cfg m v with
    | none => rfl
    | some r => exact load_entries_eq l r.1

theorem load_save_eq [Inhabited V] (hl : cfg.Lawful) (m0 m : hopscotch_map K V T) :
    ∃ m1 : hopscotch_map K V T, entries cfg m1 = [] ∧
      load cfg m0 (save cfg m) =
        match insert_all cfg m1 (entries cfg m) with
        | some m' => Except.ok m'
        | none => Except.error failure.abort := by
  simp only [save, List.cons_append, List.nil_append, load]
  rw [show size cfg m = (entries cfg m).length from hl.1.size_eq _]
  split
  · exact ⟨_, by simp [entries, create_new_container, hl.1.create_elements],
      load_entries_eq _ _⟩
  · exact ⟨_, by simp [entries, hl.1.clear_elements], load_entries_eq _ _⟩

theorem find_perm_cons_self [Inhabited V] (hl : cfg.Lawful) {m m' : hopscotch_map K V T}
    {v : K × V} (hn : nodup_keys cfg m) (hf : find cfg m v.1 = none)
    (hp : (entries cfg m').Perm (v :: entries cfg m)) : find cfg m' v.1 = some v :=
  find_of_mem hl (nodup_keys_cons hl hn hf hp) (hp.symm.subset (List.mem_cons_self _ _))

theorem find_perm_cons_ne [Inhabited V] (hl : cfg.Lawful) {m m' : hopscotch_map K V T}
    {v : K × V} (hn : nodup_keys cfg m) (hf : find cfg m v.1 = none)
    (hp : (entries cfg m').Perm (v :: entries cfg m)) {k : K} (hk : k ≠ v.1) :
    find cfg m' k = find cfg m k := by
  have hn' := nodup_keys_cons hl hn hf hp
  cases hfk : find cfg m k with
  | none =>
    refine find_eq_none hl (fun e he => ?_)
    rcases List.mem_cons.1 (hp.subset he) with rfl | he'
    · exact fun h => hk h.symm
    · exact find_none_not_mem hl hfk e he'
  | some e =>
    have hm := find_some_mem hl hfk
    rw [← hm.2]
    exact find_of_mem hl hn' (hp.symm.subset (List.mem_cons_of_mem _ hm.1))

theorem size_perm_cons (hl : cfg.Lawful) {m m' : hopscotch_map K V T} {v : K × V}
    (hp : (entries cfg m').Perm (v :: entries cfg m)) : size cfg m' = size cfg m + 1 := by
  simp only [size, hl.1.size_eq]
  simpa [entries] using hp.length_eq

theorem size_perm (hl : cfg.Lawful) {m m' : hopscotch_map K V T}
    (hp : (entries cfg m').Perm (entries cfg m)) : size cfg m' = size cfg m := by
  simp only [size, hl.1.size_eq]
  simpa [entries] using hp.length_eq

end general

/-! ### The association-list view of the operations -/

section assoc

variable {K V T : Type} {cfg : template_args K V T}

theorem key_ne_iff [DecidableEq K] (k : K) (e : K × V) : key_ne k e = true ↔ e.1 ≠ k := by
  simp [key_ne]

theorem filter_key_ne_absent [DecidableEq K] {l : List (K × V)} {k : K}
    (h : ∀ e ∈ l, e.1 ≠ k) : l.filter (key_ne k) = l :=
  List.filter_eq_self.2 (fun e he => (key_ne_iff k e).2 (h e he))

theorem perm_filter_head [DecidableEq K] {l rest : List (K × V)} {e : K × V}
    (hp : l.Perm (e :: rest)) (hn : (l.map Prod.fst).Nodup) :
    (l.filter (key_ne e.1)).Perm rest := by
  have hn' : ((e :: rest).map Prod.fst).Nodup := ((hp.map Prod.fst).nodup_iff).1 hn
  simp only [List.map_cons, List.nodup_cons, List.mem_map, not_exists, not_and] at hn'
  have h1 : (e :: rest).filter (key_ne e.1) = rest := by
    have he : key_ne e.1 e = false := by simp [key_ne]
    rw [List.filter_cons_of_neg (by simp [he])]
    exact filter_key_ne_absent (fun x hx hxe => hn'.1 x hx hxe)
  exact (hp.filter _).trans (by rw [h1])

theorem nodup_filter_keys (p : K × V → Bool) {l : List (K × V)}
    (hn : (l.map Prod.fst).Nodup) : ((l.filter p).map Prod.fst).Nodup :=
  hn.sublist ((List.filter_sublist l).map Prod.fst)

theorem assoc_put_nodup [DecidableEq K] {s : List (K × V)} (k : K) (v : V)
    (hn : (s.map Prod.fst).Nodup) : ((assoc_put s k v).map Prod.fst).Nodup := by
  simp only [assoc_put, List.map_cons, List.nodup_cons, List.mem_map, not_exists, not_and]
  refine ⟨fun e he hk => ?_, nodup_filter_keys _ hn⟩
  exact (key_ne_iff k e).1 (List.mem_filter.1 he).2 hk

theorem assoc_put_perm [DecidableEq K] {s s' : List (K × V)} (k : K) (v : V)
    (hp : s.Perm s') : (assoc_put s k v).Perm (assoc_put s' k v) :=
  List.Perm.cons _ (hp.filter _)

theorem assoc_del_perm [DecidableEq K] {s s' : List (K × V)} (k : K)
    (hp : s.Perm s') : (assoc_del s k).Perm (assoc_del s' k) :=
  hp.filter _

theorem all_key_ne_iff [DecidableEq K] (s : List (K × V)) (k : K) :
    s.all (key_ne k) = true ↔ ∀ e ∈ s, e.1 ≠ k := by
  rw [List.all_eq_true]
  exact forall₂_congr (fun e _ => key_ne_iff k e)

theorem assoc_insert_perm [DecidableEq K] {s s' : List (K × V)} (k : K) (v : V)
    (hp : s.Perm s') : (assoc_insert s k v).Perm (assoc_insert s' k v) := by
  unfold assoc_insert
  by_cases h : ∀ e ∈ s, e.1 ≠ k
  · have h' : ∀ e ∈ s', e.1 ≠ k := fun e he => h e (hp.symm.subset he)
    rw [if_pos ((all_key_ne_iff s k).2 h), if_pos ((all_key_ne_iff s' k).2 h')]
    exact List.Perm.cons _ hp
  · have h' : ¬ ∀ e ∈ s', e.1 ≠ k := fun h' => h (fun e he => h' e (hp.subset he))
    rw [if_neg (fun hc => h ((all_key_ne_iff s k).1 hc)),
      if_neg (fun hc => h' ((all_key_ne_iff s' k).1 hc))]
    exact hp

theorem assoc_put_of_head [DecidableEq K] {l rest : List (K × V)} {e : K × V} (v : V)
    (hn : (l.map Prod.fst).Nodup) (hp : l.Perm (e :: rest)) :
    ((e.1, v) :: rest).Perm (assoc_put l e.1 v) :=
  List.Perm.cons _ (perm_filter_head hp hn).symm

theorem assoc_put_of_absent [DecidableEq K] {l : List (K × V)} {k : K} (v : V)
    (h : ∀ e ∈ l, e.1 ≠ k) : assoc_put l k v = (k, v) :: l := by
  rw [assoc_put, filter_key_ne_absent h]

theorem lock_step_container (m : hopscotch_map K V T) (ev : map_event) :
    (lock_step m ev).container = m.container := by
  cases ev <;> rfl

theorem entries_lock_step (m : hopscotch_map K V T) (ev : map_event) :
    entries cfg (lock_step m ev) = entries cfg m := by
  simp [entries, lock_step_container]

theorem index_assign_entries [Inhabited V] [DecidableEq K] (hl : cfg.Lawful)
    {m m' : hopscotch_map K V T} {k : K} {v : V} (hn : nodup_keys cfg m)
    (h : index_assign cfg m k v = some m') :
    (entries cfg m').Perm (assoc_put (entries cfg m) k v) := by
  unfold index_assign at h
  split at h
  · rename_i e hf
    simp only [Option.some.injEq] at h
    subst h
    have hk := (find_some_mem hl hf).2
    obtain ⟨rest, r1, r2⟩ := hl.1.assign_found m.container (k, default) (e.1, v) e hf
    have := assoc_put_of_head v hn r1
    rw [hk] at this r2 ⊢
    exact r2.trans this
  · rename_i hf
    split at h
    · simp at h
    · simp at h
    · rename_i m1 e hd
      simp only [Option.some.injEq] at h
      subst h
      obtain ⟨he, hp, _⟩ := do_insert_spec hl hd
      simp only [Option.some.injEq] at he
      subst he
      have hf1 : find cfg m1 k = some (k, default) := find_perm_cons_self hl hn hf hp
      obtain ⟨rest, r1, r2⟩ :=
        hl.1.assign_found m1.container (k, default) (k, v) (k, default) hf1
      have hrest : rest.Perm (entries cfg m) := (List.Perm.cons_inv (r1.symm.trans hp))
      rw [assoc_put_of_absent v (find_none_not_mem hl hf)]
      exact r2.trans (List.Perm.cons _ hrest)

theorem absent_of_table (hl : cfg.Lawful) {t : T} {x : K × V}
    (h : ∀ e ∈ (container_type cfg).elements t, key_equal_redirect cfg.KeyEqual e x = false) :
    ∀ e ∈ (container_type cfg).elements t, e.1 ≠ x.1 :=
  fun e he => (key_equal_false_iff hl e x).1 (h e he)

theorem put_sync_entries [Inhabited V] [DecidableEq K] (hl : cfg.Lawful)
    {m m' : hopscotch_map K V T} {k : K} {v : V} (hn : nodup_keys cfg m)
    (h : put_sync cfg m (k, v) = some m') :
    (entries cfg m').Perm (assoc_put (entries cfg m) k v) := by
  unfold put_sync at h
  split at h
  · exact index_assign_entries hl hn h
  · simp only [lock_step_container] at h
    split at h
    · rename_i c hps
      simp only [Option.some.injEq] at h
      subst h
      rw [entries_lock_step]
      have h1 := hl.1.put_sync_true m.container (k, v) (by rw [hps])
      rw [hps] at h1
      rcases h1 with ⟨e, rest, he, r1, r2⟩ | ⟨habs, r2⟩
      · have hk : e.1 = k := (key_equal_iff hl e (k, v)).1 he
        have := assoc_put_of_head v hn r1
        rw [hk] at this
        exact r2.trans this
      · have habs' : ∀ e ∈ entries cfg m, e.1 ≠ k := absent_of_table hl habs
        rw [assoc_put_of_absent v habs']
        exact r2
    · rename_i c hps
      have h1 := hl.1.put_sync_false m.container (k, v) (by rw [hps])
      rw [hps] at h1
      obtain ⟨habs, r1⟩ := h1
      have habs' : ∀ e ∈ entries cfg m, e.1 ≠ k := absent_of_table hl habs
      rw [assoc_put_of_absent v habs']
      split at h
      · rename_i c2 it hi
        simp only [Option.some.injEq] at h
        subst h
        rw [entries_lock_step]
        have h2 := hl.1.insert_some c (k, v) it (by rw [hi])
        rw [hi] at h2
        exact h2.2.trans (List.Perm.cons _ r1)
      · rename_i c2 hi
        have h2 := hl.1.insert_none c (k, v) (by rw [hi])
        rw [hi] at h2
        split at h
        · simp at h
        · rename_i newcontainer hr
          have h3 := (rehash_to_new_container_spec hl hr).1
          split at h
          · rename_i nc it hi2
            simp only [Option.some.injEq] at h
            subst h
            simp only [entries_lock_step]
            have h4 := hl.1.insert_some newcontainer (k, v) it (by rw [hi2])
            rw [hi2] at h4
            exact h4.2.trans (List.Perm.cons _ (h3.trans (h2.trans r1)))
          · simp at h

theorem erase_table_entries [DecidableEq K] (hl : cfg.Lawful) {t t' : T} {k : K} {p : K × V}
    (hp : p.1 = k) (hn : (((container_type cfg).elements t).map Prod.fst).Nodup)
    (htrue : (∃ e, key_equal_redirect cfg.KeyEqual e p = true ∧
        ((container_type cfg).elements t).Perm (e :: (container_type cfg).elements t')) ∨
      ((∀ e ∈ (container_type cfg).elements t, key_equal_redirect cfg.KeyEqual e p = false) ∧
        ((container_type cfg).elements t').Perm ((container_type cfg).elements t))) :
    ((container_type cfg).elements t').Perm (assoc_del ((container_type cfg).elements t) k) := by
  unfold assoc_del
  rcases htrue with ⟨e, he, r⟩ | ⟨habs, r⟩
  · have hk : e.1 = k := ((key_equal_iff hl e p).1 he).trans hp
    have := perm_filter_head r hn
    rw [hk] at this
    exact this.symm
  · rw [filter_key_ne_absent (fun e he => hp ▸ absent_of_table hl habs e he)]
    exact r

theorem erase_entries [Inhabited V] [DecidableEq K] (hl : cfg.Lawful)
    {m : hopscotch_map K V T} (k : K) (hn : nodup_keys cfg m) :
    (entries cfg (erase cfg m k).1).Perm (assoc_del (entries cfg m) k) := by
  refine erase_table_entries hl (p := (k, default)) rfl hn ?_
  cases hb : ((container_type cfg).erase m.container (k, default)).2 with
  | true => exact Or.inl (hl.1.erase_true _ _ hb)
  | false => exact Or.inr (hl.1.erase_false _ _ hb)

theorem erase_sync_entries [Inhabited V] [DecidableEq K] (hl : cfg.Lawful)
    {m : hopscotch_map K V T} (k : K) (hn : nodup_keys cfg m) :
    (entries cfg (erase_sync cfg m k).1).Perm (assoc_del (entries cfg m) k) := by
  unfold erase_sync
  split
  · exact erase_entries hl k hn
  · simp only [entries_lock_step]
    refine erase_table_entries hl (p := (k, default)) rfl hn ?_
    simp only [lock_step_container]
    cases hb : ((container_type cfg).erase_sync m.container k).2 with
    | true => exact Or.inl (hl.1.erase_sync_true _ _ hb)
    | false => exact Or.inr (hl.1.erase_sync_false _ _ hb)

theorem get_sync_entries [Inhabited V] (m : hopscotch_map K V T) (k : K) :
    entries cfg (get_sync cfg m k).1 = entries cfg m := by
  unfold get_sync
  split
  · split <;> rfl
  · simp only [entries_lock_step]

theorem insert_entries [Inhabited V] [DecidableEq K] (hl : cfg.Lawful)
    {m m' : hopscotch_map K V T} {k : K} {v : V} {r : Option (K × V) × Bool}
    (h : hopscotch_map.insert cfg m (k, v) = some (m', r)) :
    (entries cfg m').Perm (assoc_insert (entries cfg m) k v) := by
  unfold assoc_insert
  rcases insert_spec hl h with ⟨_, rfl, hit, hne⟩ | ⟨_, hf, _, hp, _⟩
  · rw [if_neg]
    intro hc
    exact hne (hit.trans (find_eq_none hl ((all_key_ne_iff _ k).1 hc)))
  · rw [if_pos ((all_key_ne_iff _ k).2 (find_none_not_mem hl hf))]
    exact hp

theorem nodup_of_perm {m : hopscotch_map K V T} {s : List (K × V)}
    (hp : (entries cfg m).Perm s) (hs : (s.map Prod.fst).Nodup) : nodup_keys cfg m :=
  ((hp.map Prod.fst).nodup_iff).2 hs

theorem run_sync_entries [Inhabited V] [DecidableEq K] (hl : cfg.Lawful) :
    ∀ (ops : List (point_op K V)) (m m' : hopscotch_map K V T) (s : List (K × V)),
      (s.map Prod.fst).Nodup → (entries cfg m).Perm s → run_sync cfg m ops = some m' →
      (entries cfg m').Perm (assoc_run_sync s ops) ∧ nodup_keys cfg m'
  | [], m, m', s, hs, hp, h => by
    simp only [run_sync, Option.some.injEq] at h
    subst h
    exact ⟨hp, nodup_of_perm hp hs⟩
  | point_op.put k v :: rest, m, m', s, hs, hp, h => by
    unfold run_sync at h
    split at h
    · simp at h
    · rename_i m1 h1
      exact run_sync_entries hl rest m1 m' (assoc_put s k v) (assoc_put_nodup k v hs)
        ((put_sync_entries hl (nodup_of_perm hp hs) h1).trans (assoc_put_perm k v hp)) h
  | point_op.get k :: rest, m, m', s, hs, hp, h => by
    unfold run_sync at h
    split at h
    · simp at h
    · rename_i m1 r hg
      have h1 : entries cfg m1 = entries cfg m := by
        have h0 : entries cfg (get_sync cfg m k).1 = entries cfg m := get_sync_entries m k
        rw [hg] at h0
        exact h0
      exact run_sync_entries hl rest m1 m' s hs (by rw [h1]; exact hp) h
  | point_op.del k :: rest, m, m', s, hs, hp, h => by
    unfold run_sync at h
    exact run_sync_entries hl rest _ m' (assoc_del s k) (nodup_filter_keys _ hs)
      ((erase_sync_entries hl k (nodup_of_perm hp hs)).trans (assoc_del_perm k hp)) h

theorem assoc_insert_nodup [DecidableEq K] {s : List (K × V)} (k : K) (v : V)
    (hn : (s.map Prod.fst).Nodup) : ((assoc_insert s k v).map Prod.fst).Nodup := by
  unfold assoc_insert
  split
  · rename_i h
    simp only [List.map_cons, List.nodup_cons, List.mem_map, not_exists, not_and]
    exact ⟨fun e he => (all_key_ne_iff s k).1 h e he, hn⟩
  · exact hn

theorem run_plain_entries [Inhabited V] [DecidableEq K] (hl : cfg.Lawful) :
    ∀ (ops : List (point_op K V)) (m m' : hopscotch_map K V T) (s : List (K × V)),
      (s.map Prod.fst).Nodup → (entries cfg m).Perm s → run_plain cfg m ops = some m' →
      (entries cfg m').Perm (assoc_run_plain s ops) ∧ nodup_keys cfg m'
  | [], m, m', s, hs, hp, h => by
    simp only [run_plain, Option.some.injEq] at h
    subst h
    exact ⟨hp, nodup_of_perm hp hs⟩
  | point_op.put k v :: rest, m, m', s, hs, hp, h => by
    unfold run_plain at h
    split at h
    · simp at h
    · rename_i m1 r h1
      exact run_plain_entries hl rest m1 m' (assoc_insert s k v) (assoc_insert_nodup k v hs)
        ((insert_entries hl h1).trans (assoc_insert_perm k v hp)) h
  | point_op.get k :: rest, m, m', s, hs, hp, h => by
    unfold run_plain at h
    exact run_plain_entries hl rest m m' s hs hp h
  | point_op.del k :: rest, m, m', s, hs, hp, h => by
    unfold run_plain at h
    exact run_plain_entries hl rest _ m' (assoc_del s k) (nodup_filter_keys _ hs)
      ((erase_entries hl k (nodup_of_perm hp hs)).trans (assoc_del_perm k hp)) h

theorem assoc_put_insert_perm [DecidableEq K] [DecidableEq V] {s s' : List (K × V)} {k : K}
    {v : V} (hs : (s.map Prod.fst).Nodup) (hp : s.Perm s')
    (hv : s.all (fun e => key_ne k e || decide (e.2 = v)) = true) :
    (assoc_put s k v).Perm (assoc_insert s' k v) := by
  refine List.Perm.trans ?_ (assoc_insert_perm k v hp)
  unfold assoc_insert
  by_cases h : ∀ e ∈ s, e.1 ≠ k
  · rw [if_pos ((all_key_ne_iff s k).2 h), assoc_put_of_absent v h]
  · rw [if_neg (fun hc => h ((all_key_ne_iff s k).1 hc))]
    simp only [not_forall, not_not] at h
    obtain ⟨e, he, hk⟩ := h
    have hev : e.2 = v := by
      have := List.all_eq_true.1 hv e he
      rcases Bool.or_eq_true _ _ ▸ this with h1 | h2
      · exact absurd hk ((key_ne_iff k e).1 h1)
      · exact of_decide_eq_true h2
    obtain ⟨l1, l2, rfl⟩ := List.append_of_mem he
    have hperm : (l1 ++ e :: l2).Perm (e :: (l1 ++ l2)) := List.perm_middle
    have := assoc_put_of_head v hs hperm
    rw [hk] at this
    have hee : (k, v) = e := by
      rw [← hk, ← hev]
    rw [hee] at this
    exact this.symm.trans hperm.symm

theorem assoc_run_perm [DecidableEq K] [DecidableEq V] :
    ∀ (ops : List (point_op K V)) (s s' : List (K × V)), (s.map Prod.fst).Nodup → s.Perm s' →
      no_overwrite s ops = true → (assoc_run_sync s ops).Perm (assoc_run_plain s' ops)
  | [], s, s', _, hp, _ => hp
  | point_op.put k v :: rest, s, s', hs, hp, h => by
    simp only [no_overwrite, Bool.and_eq_true] at h
    exact assoc_run_perm rest _ _ (assoc_put_nodup k v hs)
      (assoc_put_insert_perm hs hp h.1) h.2
  | point_op.get k :: rest, s, s', hs, hp, h => by
    simp only [no_overwrite] at h
    exact assoc_run_perm rest s s' hs hp h
  | point_op.del k :: rest, s, s', hs, hp, h => by
    simp only [no_overwrite] at h
    exact assoc_run_perm rest _ _ (nodup_filter_keys _ hs) (assoc_del_perm k hp) h

end assoc

/-! ### Erase -/

section erase_facts

variable {K V T : Type} {cfg : template_args K V T}

theorem erase_cases [Inhabited V] (hl : cfg.Lawful) (m : hopscotch_map K V T) (k : K) :
    ((erase cfg m k).2 = true ∧
        ∃ e, e.1 = k ∧ (entries cfg m).Perm (e :: entries cfg (erase cfg m k).1)) ∨
      ((erase cfg m k).2 = false ∧ (∀ e ∈ entries cfg m, e.1 ≠ k) ∧
        (entries cfg (erase cfg m k).1).Perm (entries cfg m)) := by
  cases hb : (erase cfg m k).2 with
  | true =>
    obtain ⟨e, he, hp⟩ := hl.1.erase_true m.container (k, default) hb
    exact Or.inl ⟨rfl, e, (key_equal_iff hl e (k, default)).1 he, hp⟩
  | false =>
    obtain ⟨ha, hp⟩ := hl.1.erase_false m.container (k, default) hb
    exact Or.inr ⟨rfl, fun e he => (key_equal_false_iff hl e (k, default)).1 (ha e he), hp⟩

theorem nodup_keys_of_cons {m m' : hopscotch_map K V T} {e : K × V}
    (hn : nodup_keys cfg m) (hp : (entries cfg m).Perm (e :: entries cfg m')) :
    nodup_keys cfg m' ∧ ∀ x ∈ entries cfg m', x.1 ≠ e.1 := by
  have h := ((hp.map Prod.fst).nodup_iff).1 hn
  simp only [List.map_cons, List.nodup_cons, List.mem_map, not_exists, not_and] at h
  exact ⟨h.2, fun x hx hxe => h.1 x hx hxe⟩

theorem erase_nodup_keys [Inhabited V] (hl : cfg.Lawful) {m : hopscotch_map K V T}
    (hn : nodup_keys cfg m) (k : K) : nodup_keys cfg (erase cfg m k).1 := by
  rcases erase_cases hl m k with ⟨_, e, _, hp⟩ | ⟨_, _, hp⟩
  · exact (nodup_keys_of_cons hn hp).1
  · exact ((hp.map Prod.fst).nodup_iff).2 hn

theorem erase_find_self [Inhabited V] (hl : cfg.Lawful) {m : hopscotch_map K V T}
    (hn : nodup_keys cfg m) (k : K) : find cfg (erase cfg m k).1 k = none := by
  rcases erase_cases hl m k with ⟨_, e, hk, hp⟩ | ⟨_, ha, hp⟩
  · exact find_eq_none hl (fun x hx => hk ▸ (nodup_keys_of_cons hn hp).2 x hx)
  · exact find_eq_none hl (fun x hx => ha x (hp.subset hx))

theorem erase_find_other [Inhabited V] (hl : cfg.Lawful) {m : hopscotch_map K V T}
    (hn : nodup_keys cfg m) {k k' : K} (hk' : k' ≠ k) :
    find cfg (erase cfg m k).1 k' = find cfg m k' := by
  rcases erase_cases hl m k with ⟨_, e, hk, hp⟩ | ⟨_, _, hp⟩
  · have h1 := nodup_keys_of_cons hn hp
    have hf : find cfg (erase cfg m k).1 e.1 = none := find_eq_none hl h1.2
    exact (find_perm_cons_ne hl h1.1 hf hp (hk ▸ hk')).symm
  · exact find_congr hl hn hp k'

theorem erase_flag_iff [Inhabited V] (hl : cfg.Lawful) (m : hopscotch_map K V T) (k : K) :
    (erase cfg m k).2 = true ↔ find cfg m k ≠ none := by
  rcases erase_cases hl m k with ⟨hb, e, hk, hp⟩ | ⟨hb, ha, _⟩
  · refine ⟨fun _ hf => ?_, fun _ => hb⟩
    exact find_none_not_mem hl hf e (hp.symm.subset (List.mem_cons_self _ _)) hk
  · refine ⟨fun h => ?_, fun h => absurd (find_eq_none hl ha) h⟩
    rw [hb] at h
    cases h

theorem erase_size [Inhabited V] (hl : cfg.Lawful) (m : hopscotch_map K V T) (k : K) :
    size cfg (erase cfg m k).1 + (if (erase cfg m k).2 then 1 else 0) = size cfg m := by
  rcases erase_cases hl m k with ⟨hb, e, _, hp⟩ | ⟨hb, _, hp⟩
  · rw [hb, if_pos rfl]
    exact (size_perm_cons hl hp).symm
  · rw [hb]
    simpa using size_perm hl hp

theorem erase_all_spec [Inhabited V] (hl : cfg.Lawful) :
    ∀ (ks : List K) (m : hopscotch_map K V T), nodup_keys cfg m → ks.Nodup →
      (∀ k ∈ ks, find cfg m k ≠ none) →
      nodup_keys cfg (erase_all cfg m ks) ∧
        size cfg (erase_all cfg m ks) + ks.length = size cfg m ∧
        (∀ k ∈ ks, find cfg (erase_all cfg m ks) k = none) ∧
        ∀ k, k ∉ ks → find cfg (erase_all cfg m ks) k = find cfg m k
  | [], m, hn, _, _ => by simp [erase_all, hn]
  | k :: ks, m, hn, hks, hpres => by
    have hk := List.nodup_cons.1 hks
    have hn1 := erase_nodup_keys hl hn k
    have hpres1 : ∀ k' ∈ ks, find cfg (erase cfg m k).1 k' ≠ none := by
      intro k' hk'
      have hne : k' ≠ k := fun h => hk.1 (by rw [← h]; exact hk')
      rw [erase_find_other hl hn hne]
      exact hpres k' (List.mem_cons_of_mem _ hk')
    obtain ⟨i1, i2, i3, i4⟩ := erase_all_spec hl ks (erase cfg m k).1 hn1 hk.2 hpres1
    have hflag : (erase cfg m k).2 = true :=
      (erase_flag_iff hl m k).2 (hpres k (List.mem_cons_self _ _))
    have hsz := erase_size hl m k
    rw [hflag, if_pos rfl] at hsz
    refine ⟨i1, ?_, ?_, ?_⟩
    · simp only [erase_all, List.length_cons]
      omega
    · intro k' hk'
      rcases List.mem_cons.1 hk' with rfl | hk''
      · by_cases hin : k' ∈ ks
        · exact i3 k' hin
        · simp only [erase_all]
          rw [i4 k' hin]
          exact erase_find_self hl hn k'
      · exact i3 k' hk''
    · intro k' hk'
      simp only [List.mem_cons, not_or] at hk'
      simp only [erase_all]
      rw [i4 k' hk'.2]
      exact erase_find_other hl hn hk'.1

end erase_facts

/-! ### Synchronized operations -/

section sync_facts

variable {K V T : Type} {cfg : template_args K V T}

theorem get_sync_found [Inhabited V] (hs : cfg.Synchronized = true) (hl : cfg.Lawful)
    {m : hopscotch_map K V T} (hn : nodup_keys cfg m) {k : K} {e : K × V}
    (hf : find cfg m k = some e) : (get_sync cfg m k).2 = some (true, e.2) := by
  have hm := find_some_mem hl hf
  simp only [get_sync, hs, Bool.not_true, Bool.false_eq_true, if_false, lock_step_container]
  cases hb : ((container_type cfg).get_sync m.container (k, default)).1 with
  | false =>
    have := hl.1.get_sync_false m.container (k, default) hb e hm.1
    exact absurd hm.2 ((key_equal_false_iff hl e (k, default)).1 this)
  | true =>
    obtain ⟨h1, h2⟩ := hl.1.get_sync_true m.container (k, default) hb
    have hk := (key_equal_iff hl _ (k, default)).1 h2
    have : ((container_type cfg).get_sync m.container (k, default)).2 = e :=
      nodup_keys_unique hn h1 hm.1 (hk.trans hm.2.symm)
    rw [this]

theorem get_sync_missed [Inhabited V] (hs : cfg.Synchronized = true) (hl : cfg.Lawful)
    {m : hopscotch_map K V T} {k : K} (hf : find cfg m k = none) :
    ∃ x, (get_sync cfg m k).2 = some (false, x) := by
  simp only [get_sync, hs, Bool.not_true, Bool.false_eq_true, if_false, lock_step_container]
  cases hb : ((container_type cfg).get_sync m.container (k, default)).1 with
  | false => exact ⟨_, rfl⟩
  | true =>
    obtain ⟨h1, h2⟩ := hl.1.get_sync_true m.container (k, default) hb
    exact absurd ((key_equal_iff hl _ (k, default)).1 h2) (find_none_not_mem hl hf _ h1)

theorem find_assoc_put [Inhabited V] [DecidableEq K] (hl : cfg.Lawful)
    {m m' : hopscotch_map K V T} {k : K} {v : V} (hn : nodup_keys cfg m)
    (hp : (entries cfg m').Perm (assoc_put (entries cfg m) k v)) :
    nodup_keys cfg m' ∧ find cfg m' k = some (k, v) ∧
      ∀ k', k' ≠ k → find cfg m' k' = find cfg m k' := by
  have hn' : nodup_keys cfg m' := nodup_of_perm hp (assoc_put_nodup k v hn)
  refine ⟨hn', ?_, ?_⟩
  · exact find_of_mem hl hn' (hp.symm.subset (List.mem_cons_self _ _))
  · intro k' hk'
    cases hf : find cfg m k' with
    | none =>
      refine find_eq_none hl (fun e he => ?_)
      rcases List.mem_cons.1 (hp.subset he) with rfl | he'
      · exact fun h => hk' h.symm
      · exact find_none_not_mem hl hf e (List.mem_filter.1 he').1
    | some e =>
      have hm := find_some_mem hl hf
      rw [← hm.2]
      refine find_of_mem hl hn' (hp.symm.subset (List.mem_cons_of_mem _ ?_))
      exact List.mem_filter.2 ⟨hm.1, (key_ne_iff k e).2 (hm.2 ▸ hk')⟩

theorem size_assoc_put [Inhabited V] [DecidableEq K] (hl : cfg.Lawful)
    {m m' : hopscotch_map K V T} {k : K} {v : V} (hn : nodup_keys cfg m)
    (hp : (entries cfg m').Perm (assoc_put (entries cfg m) k v)) :
    (find cfg m k = none → size cfg m' = size cfg m + 1) ∧
      (find cfg m k ≠ none → size cfg m' = size cfg m) := by
  constructor
  · intro hf
    rw [assoc_put_of_absent v (find_none_not_mem hl hf)] at hp
    exact size_perm_cons hl hp
  · intro hf
    cases hfe : find cfg m k with
    | none => exact absurd hfe hf
    | some e =>
      have hm := find_some_mem hl hfe
      obtain ⟨l1, l2, hl12⟩ := List.append_of_mem hm.1
      have hperm : (entries cfg m).Perm (e :: (l1 ++ l2)) := by
        rw [hl12]
        exact List.perm_middle
      have h1 := assoc_put_of_head v hn hperm
      rw [hm.2] at h1
      have h2 := (hp.trans h1.symm).length_eq
      have h3 := hperm.length_eq
      simp only [size, hl.1.size_eq]
      simp only [entries, List.length_cons] at h2 h3 ⊢
      omega

theorem do_insert_lock {m m' : hopscotch_map K V T} {v : K × V} {it : Option (K × V)}
    (h : do_insert cfg m v = some (m', it)) :
    m'.lock = m.lock ∧
      (m'.history = m.history ∨
        m'.history = m.history ++ [map_event.swap, map_event.destroy]) := by
  unfold do_insert at h
  split at h
  · simp only [Option.some.injEq, Prod.mk.injEq] at h
    obtain ⟨rfl, _⟩ := h
    exact ⟨rfl, Or.inl rfl⟩
  · split at h
    · simp at h
    · split at h
      · simp only [Option.some.injEq, Prod.mk.injEq] at h
        obtain ⟨rfl, _⟩ := h
        exact ⟨rfl, Or.inr rfl⟩
      · simp at h

theorem index_assign_lock [Inhabited V] {m m' : hopscotch_map K V T} {k : K} {v : V}
    (h : index_assign cfg m k v = some m') :
    m'.lock = m.lock ∧
      (m'.history = m.history ∨
        m'.history = m.history ++ [map_event.swap, map_event.destroy]) := by
  unfold index_assign at h
  split at h
  · simp only [Option.some.injEq] at h
    subst h
    exact ⟨rfl, Or.inl rfl⟩
  · split at h
    · simp at h
    · simp at h
    · rename_i m1 e hd
      simp only [Option.some.injEq] at h
      subst h
      have := do_insert_lock hd
      exact ⟨this.1, this.2⟩

end sync_facts

/-! ### Load -/

section load_facts

variable {K V T : Type} {cfg : template_args K V T}

theorem insert_find [Inhabited V] [DecidableEq K] (hl : cfg.Lawful)
    {m m' : hopscotch_map K V T} {v : K × V}
    {r : Option (K × V) × Bool} (hn : nodup_keys cfg m)
    (h : hopscotch_map.insert cfg m v = some (m', r)) (k : K) :
    find cfg m' k =
      match find cfg m k with
      | some e => some e
      | none => if v.1 = k then some v else none := by
  rcases insert_spec hl h with ⟨_, rfl, hit, hne⟩ | ⟨_, hf, _, hp, _⟩
  · cases hfk : find cfg m' k with
    | some e => rfl
    | none =>
      have hvk : v.1 ≠ k := by
        intro hvk
        rw [hvk, hfk] at hit
        exact hne hit
      simp [hvk]
  · by_cases hvk : v.1 = k
    · subst hvk
      rw [hf, find_perm_cons_self hl hn hf hp]
      simp
    · rw [find_perm_cons_ne hl hn hf hp (fun h => hvk h.symm)]
      cases hfk : find cfg m k with
      | some e => rfl
      | none => simp [hvk]

theorem insert_all_find [Inhabited V] [DecidableEq K] (hl : cfg.Lawful) :
    ∀ (es : List (K × V)) (m m' : hopscotch_map K V T), nodup_keys cfg m →
      insert_all cfg m es = some m' → ∀ k,
      find cfg m' k =
        match find cfg m k with
        | some e => some e
        | none => es.find? (fun e => decide (e.1 = k))
  | [], m, m', _, h, k => by
    simp only [insert_all, Option.some.injEq] at h
    subst h
    cases find cfg m k <;> simp
  | v :: es, m, m', hn, h, k => by
    unfold insert_all at h
    split at h
    · simp at h
    · rename_i m1 r hi
      rw [insert_all_find hl es m1 m' (insert_nodup_keys hl hn hi) h k, insert_find hl hn hi k]
      cases hfk : find cfg m k with
      | some e => rfl
      | none =>
        by_cases hvk : v.1 = k
        · simp [hvk]
        · simp [hvk]

theorem load_eq_insert_all [Inhabited V] (m : hopscotch_map K V T) (c : Nat)
    (es : List (K × V)) :
    load cfg m (archive_item.num es.length :: archive_item.num c ::
        es.map archive_item.entry) =
      match insert_all cfg
        (if capacity cfg m ≠ c then
          { m with container := create_new_container cfg c,
                   history := m.history ++ [map_event.destroy, map_event.swap] }
        else { m with container := (container_type cfg).clear m.container }) es with
      | some m' => Except.ok m'
      | none => Except.error failure.abort := by
  simp only [load]
  split
  · exact load_entries_eq _ _
  · exact load_entries_eq _ _

end load_facts

end hopscotch_map

/-! ## The claims -/

section claims

open hopscotch_map

variable {K V T : Type}

/-- C1 (no duplicates). For every finite sequence `vs` of `insert` calls applied to a newly
constructed map that completes without abort, the keys of the entries yielded by the iteration
are pairwise distinct, and `size()` is the number of distinct keys among the inserted pairs;
resizes triggered on the way are covered, since `insert_all` runs the real `insert`. -/
theorem insert_no_duplicates [Inhabited V] [DecidableEq K] (cfg : template_args K V T)
    (hl : cfg.Lawful) (vs : List (K × V)) (m' : hopscotch_map K V T)
    (h : insert_all cfg (new cfg) vs = some m') :
    ((entries cfg m').map Prod.fst).Nodup ∧
      size cfg m' = ((vs.map Prod.fst).dedup).length := by
  have hn0 : nodup_keys cfg (new cfg) := by simp [nodup_keys, entries_new hl]
  obtain ⟨hn, hk⟩ := insert_all_spec hl vs (new cfg) m' hn0 h
  refine ⟨hn, ?_⟩
  have hperm : ((entries cfg m').map Prod.fst).Perm ((vs.map Prod.fst).dedup) :=
    (List.perm_ext_iff_of_nodup hn (List.nodup_dedup _)).2 (fun k => by
      rw [hk k, entries_new hl]
      simp)
  have := hperm.length_eq
  rw [List.length_map] at this
  rw [← this]
  exact hl.1.size_eq _

/-- Witness for C1: five inserts on a new map over the bounded-probing table with neighbourhood
size 2, the fourth of which resizes the table and the fifth of which repeats a key. -/
theorem insert_no_duplicates_witness :
    insert_all (nat_args false 2) (new (nat_args false 2))
        [(0, 10), (32, 11), (2, 12), (1, 13), (0, 99)] = some example_grown ∧
      ((entries (nat_args false 2) example_grown).map Prod.fst).Nodup ∧
      size (nat_args false 2) example_grown =
        (([(0, 10), (32, 11), (2, 12), (1, 13), (0, 99)].map Prod.fst).dedup).length :=
  ⟨by rfl, insert_no_duplicates (nat_args false 2) (nat_args_lawful false 2)
    [(0, 10), (32, 11), (2, 12), (1, 13), (0, 99)] example_grown (by rfl)⟩

/-- C2 (insert of a present key). For every map without duplicate keys and every pair `v` whose
key is the key of a live entry `e`, `insert(v)` returns the iterator to `e` with
`inserted = false`, and the map after the call is the map before it: table, size, capacity and
every stored value, the one under the key of `v` included, are untouched. -/
theorem insert_present_unchanged [Inhabited V] (cfg : template_args K V T) (hl : cfg.Lawful)
    (m : hopscotch_map K V T) (hn : nodup_keys cfg m) (v e : K × V)
    (he : e ∈ entries cfg m) (hk : e.1 = v.1) :
    insert cfg m v = some (m, some e, false) := by
  have hf : find cfg m v.1 = some e := by
    rw [← hk]
    exact find_of_mem hl hn he
  simp [hopscotch_map.insert, hf]

/-- Witness for C2: inserting `(32, 99)` into a map that holds `(32, 11)`. -/
theorem insert_present_unchanged_witness :
    insert (nat_args false 2) example_small (32, 99) = some (example_small, some (32, 11), false) :=
  insert_present_unchanged (nat_args false 2) (nat_args_lawful false 2) example_small
    (by unfold nodup_keys; decide) (32, 99) (32, 11) (by decide) rfl

/-- C3 (resize preserves content). For every map without duplicate keys and every pair `v`
whose key is absent, if the first placement attempt in the current table fails and
`insert(v)` returns, then the table after the call is the replacement built by
`rehash_to_new_container()` with `v` inserted, every key found before the call is found
afterwards with the same entry, `v` itself is found under its key, and `size()` has grown by
exactly one. -/
theorem insert_resize_preserves [Inhabited V] (cfg : template_args K V T) (hl : cfg.Lawful)
    (m m' : hopscotch_map K V T) (v : K × V) (it : Option (K × V)) (b : Bool)
    (hn : nodup_keys cfg m) (habsent : find cfg m v.1 = none)
    (hfail : ((container_type cfg).insert m.container v).2 = none)
    (h : insert cfg m v = some (m', it, b)) :
    (∃ nc, rehash_to_new_container cfg
        { m with container := ((container_type cfg).insert m.container v).1 } SIZE_MAX = some nc ∧
        m'.container = ((container_type cfg).insert nc v).1) ∧
      (∀ k e, find cfg m k = some e → find cfg m' k = some e) ∧
      find cfg m' v.1 = some v ∧
      size cfg m' = size cfg m + 1 := by
  rcases insert_spec hl h with ⟨_, _, hit, hne⟩ | ⟨_, _, _, hp, _⟩
  · rw [habsent] at hit
    exact absurd hit hne
  have hn' : nodup_keys cfg m' := nodup_keys_cons hl hn habsent hp
  refine ⟨?_, ?_, ?_, ?_⟩
  · simp only [hopscotch_map.insert, habsent, do_insert] at h
    cases hi : (container_type cfg).insert m.container v with
    | mk c r =>
      rw [hi] at hfail h
      simp only at hfail
      subst hfail
      simp only at h
      cases hr : rehash_to_new_container cfg { m with container := c } SIZE_MAX with
      | none => simp [hr] at h
      | some nc =>
        refine ⟨nc, rfl, ?_⟩
        simp only [hr] at h
        cases hi2 : (container_type cfg).insert nc v with
        | mk nc2 r2 =>
          rw [hi2] at h
          cases r2 with
          | none => simp at h
          | some x =>
            simp only [Option.some.injEq, Prod.mk.injEq] at h
            rw [← h.1]
  · intro k e hf
    have hm := find_some_mem hl hf
    rw [← hm.2]
    exact find_of_mem hl hn' (hp.symm.subset (List.mem_cons_of_mem _ hm.1))
  · exact find_of_mem hl hn' (hp.symm.subset (List.mem_cons_self _ _))
  · simp only [size, hl.1.size_eq]
    simpa [entries] using hp.length_eq

/-- Witness for C3: `insert((1, 13))` on `example_small`, where both slots of the neighbourhood
of key 1 are taken, so that the table is replaced. -/
theorem insert_resize_preserves_witness :
    (∃ nc, rehash_to_new_container (nat_args false 2)
        { example_small with container :=
            ((container_type (nat_args false 2)).insert example_small.container (1, 13)).1 }
        SIZE_MAX = some nc ∧
        example_grown.container = ((container_type (nat_args false 2)).insert nc (1, 13)).1) ∧
      (∀ k e, find (nat_args false 2) example_small k = some e →
        find (nat_args false 2) example_grown k = some e) ∧
      find (nat_args false 2) example_grown (1, 13).1 = some (1, 13) ∧
      size (nat_args false 2) example_grown = size (nat_args false 2) example_small + 1 :=
  insert_resize_preserves (nat_args false 2) (nat_args_lawful false 2) example_small
    example_grown (1, 13) (some (1, 13)) true (by unfold nodup_keys; decide) (by rfl) (by rfl) (by rfl)

/-- C4 as stated fails: the map `example_wrapped`, built by three inserts of distinct keys
without abort, is saved as `3, 32, (31, 3), (30, 1), (94, 2)`; loading that archive into a new
map inserts `(31, 3)` into slot 31 and `(30, 1)` into slot 30, finds the neighbourhood of
bucket 30 full for `(94, 2)`, rebuilds the table with `size() * 2 = 4` slots, fails to place
`(94, 2)` again and aborts on the assertion of `do_insert`, so that no map is produced. A table
requested with 64 slots, twice the capacity, has no room for `(94, 2)` after `(31, 3)` and
`(30, 1)` either. -/
theorem save_load_abort_counterexample :
    insert_all (nat_args false 2) (new (nat_args false 2)) [(30, 1), (94, 2), (31, 3)] =
        some example_wrapped ∧
      ((entries (nat_args false 2) example_wrapped).map Prod.fst).Nodup ∧
      save (nat_args false 2) example_wrapped =
        [archive_item.num 3, archive_item.num 32, archive_item.entry (31, 3),
          archive_item.entry (30, 1), archive_item.entry (94, 2)] ∧
      load (nat_args false 2) (new (nat_args false 2)) (save (nat_args false 2) example_wrapped) =
        Except.error failure.abort ∧
      (reinsert_all (nat_args false 2) [(31, 3), (30, 1)]
          (create_new_container (nat_args false 2) 64)).map
        (fun t => ((container_type (nat_args false 2)).insert t (94, 2)).2) = some none := by
  refine ⟨by rfl, by decide, by rfl, by rfl, by rfl⟩

/-- C4, amended (round trip). For every map `m` without duplicate keys, `load` of the archive
written by `save` for `m`, into a newly constructed map, never fails to decode: either an
assertion of the resize protocol aborts, or it returns a map with the same `size()` on which
`find` agrees with `m` for every key. -/
theorem save_load_round_trip [Inhabited V] (cfg : template_args K V T) (hl : cfg.Lawful)
    (m : hopscotch_map K V T) (hn : nodup_keys cfg m) :
    load cfg (new cfg) (save cfg m) = Except.error failure.abort ∨
      ∃ m', load cfg (new cfg) (save cfg m) = Except.ok m' ∧
        size cfg m' = size cfg m ∧ ∀ k, find cfg m' k = find cfg m k := by
  obtain ⟨m1, h1, h2⟩ := load_save_eq hl (new cfg) m
  rw [h2]
  cases hi : insert_all cfg m1 (entries cfg m) with
  | none => exact Or.inl rfl
  | some m' =>
    refine Or.inr ⟨m', rfl, ?_, ?_⟩
    · have hp := insert_all_perm hl (entries cfg m) m1 m' (by simpa [h1] using hn) hi
      rw [h1, List.append_nil] at hp
      simp only [size, hl.1.size_eq]
      exact hp.length_eq
    · have hp := insert_all_perm hl (entries cfg m) m1 m' (by simpa [h1] using hn) hi
      exact find_congr hl hn (by simpa [h1] using hp)

/-- Witness for C4 amended: the round trip of `example_grown`, a map that went through a resize; the
load returns `example_loaded`. -/
theorem save_load_round_trip_witness :
    load (nat_args false 2) (new (nat_args false 2)) (save (nat_args false 2) example_grown) =
        Except.ok example_loaded ∧
      (load (nat_args false 2) (new (nat_args false 2)) (save (nat_args false 2) example_grown) =
          Except.error failure.abort ∨
        ∃ m', load (nat_args false 2) (new (nat_args false 2))
            (save (nat_args false 2) example_grown) = Except.ok m' ∧
          size (nat_args false 2) m' = size (nat_args false 2) example_grown ∧
          ∀ k, find (nat_args false 2) m' k = find (nat_args false 2) example_grown k) :=
  ⟨by rfl, save_load_round_trip (nat_args false 2) (nat_args_lawful false 2) example_grown
    (by unfold nodup_keys; decide)⟩

/-- C5 (capacity monotonicity), evaluated at a failing input: on a map of capacity 32 holding
three entries, `insert((1, 13))` fails to place the pair in the full neighbourhood of bucket 1,
and `do_insert` replaces the table by one requested with `size() * 2 = 6` slots, so that
`capacity()` drops from 32 to 6. The call `rehash((size_t)(-1))` shrinks the same map in the
same way, because `rehash_to_new_container` takes that argument for its default. -/
theorem capacity_shrinks_on_resize :
    insert_all (nat_args false 2) (new (nat_args false 2)) [(0, 10), (32, 11), (2, 12)] =
        some example_small ∧
      capacity (nat_args false 2) example_small = 32 ∧
      hopscotch_map.insert (nat_args false 2) example_small (1, 13) =
        some (example_grown, some (1, 13), true) ∧
      capacity (nat_args false 2) example_grown = 6 ∧
      (rehash (nat_args false 2) example_small SIZE_MAX).map (capacity (nat_args false 2)) =
        some 6 := by
  refine ⟨by rfl, by rfl, by rfl, by rfl, by rfl⟩

/-- C6 as stated fails, in three ways. Putting key 1 twice with the values 10 and 20 on a new
map leaves `1 ↦ 20` after the `put_sync` calls, in the unsynchronized and in the synchronized
configuration, and `1 ↦ 10` after the corresponding `insert` calls. In the unsynchronized
configuration `get_sync(5)` on a new map reads its value through `end()`, so that the run does
not complete, whereas `find(5)` does. And the puts of the keys 0, 64 and 128 abort on the
assertion of the resize protocol, leaving no resulting state. -/
theorem sync_equivalence_counterexample :
    (run_sync (nat_args false 2) (new (nat_args false 2))
        [point_op.put 1 10, point_op.put 1 20]).map (fun m => find (nat_args false 2) m 1) =
        some (some (1, 20)) ∧
      (run_sync (nat_args true 2) (new (nat_args true 2))
        [point_op.put 1 10, point_op.put 1 20]).map (fun m => find (nat_args true 2) m 1) =
        some (some (1, 20)) ∧
      (run_plain (nat_args false 2) (new (nat_args false 2))
        [point_op.put 1 10, point_op.put 1 20]).map (fun m => find (nat_args false 2) m 1) =
        some (some (1, 10)) ∧
      run_sync (nat_args false 2) (new (nat_args false 2)) [point_op.get 5] = none ∧
      (run_plain (nat_args false 2) (new (nat_args false 2)) [point_op.get 5]).isSome = true ∧
      run_sync (nat_args true 2) (new (nat_args true 2))
        [point_op.put 0 1, point_op.put 64 2, point_op.put 128 3] = none ∧
      run_plain (nat_args true 2) (new (nat_args true 2))
        [point_op.put 0 1, point_op.put 64 2, point_op.put 128 3] = none := by
  refine ⟨by rfl, by rfl, by rfl, by rfl, by rfl, by rfl, by rfl⟩

/-- C6, amended. In a single thread, in either configuration, for every sequence of
`put_sync` / `get_sync` / `erase_sync` calls on a new map in which no `put_sync` changes the
value of a key that is present at that point (`no_overwrite`), if the sequence and the
corresponding sequence of `insert` / `find` / `erase` calls on a new map both complete (no
assertion aborts and no `get_sync` reads its value through `end()`), then the two resulting
maps hold the same entries: `find` agrees on every key and the sizes are equal. -/
theorem sync_plain_equivalence [Inhabited V] [DecidableEq K] [DecidableEq V]
    (cfg : template_args K V T) (hl : cfg.Lawful) (ops : List (point_op K V))
    (hno : no_overwrite [] ops = true) (m1 m2 : hopscotch_map K V T)
    (h1 : run_sync cfg (new cfg) ops = some m1) (h2 : run_plain cfg (new cfg) ops = some m2) :
    (∀ k, find cfg m1 k = find cfg m2 k) ∧ size cfg m1 = size cfg m2 ∧
      (entries cfg m1).Perm (entries cfg m2) := by
  have h0 : (entries cfg (new cfg)).Perm [] := by rw [entries_new hl]
  obtain ⟨p1, _⟩ := run_sync_entries hl ops (new cfg) m1 [] (by simp) h0 h1
  obtain ⟨p2, n2⟩ := run_plain_entries hl ops (new cfg) m2 [] (by simp) h0 h2
  have hp : (entries cfg m1).Perm (entries cfg m2) :=
    p1.trans ((assoc_run_perm ops [] [] (by simp) (List.Perm.refl _) hno).trans p2.symm)
  exact ⟨fun k => find_congr hl n2 hp k, size_perm hl hp, hp⟩

/-- Witness for C6 amended: a sequence of synchronized calls with a resize on the exclusive
path, an erase, a second put of an erased key and a put that repeats a stored pair; both runs
complete. -/
theorem sync_plain_equivalence_witness :
    ∃ m1 m2,
      run_sync (nat_args true 2) (new (nat_args true 2))
        [point_op.put 0 10, point_op.put 32 11, point_op.get 0, point_op.put 2 12,
          point_op.put 1 13, point_op.del 32, point_op.put 32 7, point_op.put 0 10,
          point_op.get 5] = some m1 ∧
      run_plain (nat_args true 2) (new (nat_args true 2))
        [point_op.put 0 10, point_op.put 32 11, point_op.get 0, point_op.put 2 12,
          point_op.put 1 13, point_op.del 32, point_op.put 32 7, point_op.put 0 10,
          point_op.get 5] = some m2 ∧
      (∀ k, find (nat_args true 2) m1 k = find (nat_args true 2) m2 k) ∧
      size (nat_args true 2) m1 = size (nat_args true 2) m2 ∧
      (entries (nat_args true 2) m1).Perm (entries (nat_args true 2) m2) :=
  ⟨(run_sync (nat_args true 2) (new (nat_args true 2))
      [point_op.put 0 10, point_op.put 32 11, point_op.get 0, point_op.put 2 12,
        point_op.put 1 13, point_op.del 32, point_op.put 32 7, point_op.put 0 10,
        point_op.get 5]).get (by rfl),
    (run_plain (nat_args true 2) (new (nat_args true 2))
      [point_op.put 0 10, point_op.put 32 11, point_op.get 0, point_op.put 2 12,
        point_op.put 1 13, point_op.del 32, point_op.put 32 7, point_op.put 0 10,
        point_op.get 5]).get (by rfl),
    (Option.some_get _).symm, (Option.some_get _).symm,
    sync_plain_equivalence (nat_args true 2) (nat_args_lawful true 2) _ (by rfl) _ _
      (Option.some_get _).symm (Option.some_get _).symm⟩

/-- C7 (result of `get_sync`), evaluated at a failing input: in the unsynchronized
configuration the first component of the result is `iter == end()`, so for the present key 32
the call returns `(false, 11)`, and for the absent key 5 the value is read through `end()`;
the synchronized configuration returns `(true, 11)` and `(false, _)` on the same map. -/
theorem get_sync_unsynchronized_flag :
    find (nat_args false 2) example_small 32 = some (32, 11) ∧
      (get_sync (nat_args false 2) example_small 32).2 = some (false, 11) ∧
      find (nat_args false 2) example_small 5 = none ∧
      (get_sync (nat_args false 2) example_small 5).2 = none ∧
      (get_sync (nat_args true 2) example_small 32).2 = some (true, 11) ∧
      (get_sync (nat_args true 2) example_small 5).2 = some (false, 0) := by
  refine ⟨by rfl, by rfl, by rfl, by rfl, by rfl, by rfl⟩

/-- C8 (`rehash`), evaluated at a failing input: for `s = (size_t)(-1)`, which exceeds the
capacity 32 of the map, `rehash(s)` passes `s` on to `rehash_to_new_container`, which takes it
for its default argument and requests `size() * 2 = 6` slots; the call returns with
`capacity()` equal to 6: not at least `s`, and less than the 32 slots the map had, although
`rehash` is commented "only increases". -/
theorem rehash_size_max_shrinks :
    size (nat_args false 2) example_small = 3 ∧
      capacity (nat_args false 2) example_small = 32 ∧
      capacity (nat_args false 2) example_small < SIZE_MAX ∧
      (rehash (nat_args false 2) example_small SIZE_MAX).map (fun m => m.container) =
        rehash_to_new_container (nat_args false 2) example_small (3 * 2) ∧
      (rehash (nat_args false 2) example_small SIZE_MAX).map (capacity (nat_args false 2)) =
        some 6 ∧
      ¬ (SIZE_MAX ≤ 6) ∧ 6 < 32 := by
  refine ⟨by rfl, by rfl, by decide, by rfl, by rfl, by decide, by decide⟩

/-- Behaviour of `rehash(s)` in general. For every map without duplicate keys and every target
`s`: if
`s ≤ capacity()`, `rehash(s)` returns the map as it is; if `s > capacity()`, then either an
assertion aborts the reinsertion, or the table is replaced by the one that
`rehash_to_new_container(s)` builds, `size()` is unchanged, the entries are those of the old
table and `find` agrees with the old map on every key; the capacity of the new table is that
of a table constructed with requested capacity `s`, hence at least `s`, when `s` is not the
value `(size_t)(-1)`, and that of a table constructed with requested capacity `size() * 2`
(modulo `2^64`) when `s` is `(size_t)(-1)`. -/
theorem rehash_spec [Inhabited V] (cfg : template_args K V T) (hl : cfg.Lawful)
    (m : hopscotch_map K V T) (hn : nodup_keys cfg m) (s : Nat) :
    (s ≤ capacity cfg m → rehash cfg m s = some m) ∧
      (capacity cfg m < s →
        rehash cfg m s = none ∨
          ∃ m', rehash cfg m s = some m' ∧
            rehash_to_new_container cfg m s = some m'.container ∧
            size cfg m' = size cfg m ∧
            (entries cfg m').Perm (entries cfg m) ∧
            (∀ k, find cfg m' k = find cfg m k) ∧
            (s ≠ SIZE_MAX →
              capacity cfg m' = (container_type cfg).capacity (create_new_container cfg s) ∧
                s ≤ capacity cfg m') ∧
            (s = SIZE_MAX →
              capacity cfg m' = (container_type cfg).capacity
                (create_new_container cfg ((size cfg m * 2) % 2 ^ 64)))) := by
  constructor
  · intro h
    simp [rehash, Nat.not_lt.2 h]
  · intro h
    cases hr : rehash_to_new_container cfg m s with
    | none => exact Or.inl (by simp [rehash, h, hr])
    | some nc =>
      refine Or.inr ⟨{ m with container := nc,
                              history := m.history ++ [map_event.swap, map_event.destroy] },
        by simp only [rehash, h, hr, if_true], rfl, ?_⟩
      have hspec := rehash_to_new_container_spec hl hr
      have hcap : capacity cfg
          ({ m with container := nc,
                    history := m.history ++ [map_event.swap, map_event.destroy] } :
            hopscotch_map K V T) =
          (container_type cfg).capacity (create_new_container cfg
            (if s = SIZE_MAX then (size cfg m * 2) % 2 ^ 64 else s)) := hspec.2
      refine ⟨size_perm hl hspec.1, hspec.1, find_congr hl hn hspec.1, ?_, ?_⟩
      · intro hs
        rw [if_neg hs] at hcap
        refine ⟨hcap, ?_⟩
        rw [hcap]
        exact hl.1.create_capacity s
      · intro hs
        rw [if_pos hs] at hcap
        exact hcap

/-- Instance of `rehash_spec`: `rehash(40)` on `example_small`, whose capacity is 32; the call
returns a map of capacity 40. -/
theorem rehash_spec_witness :
    (rehash (nat_args false 2) example_small 40).map (capacity (nat_args false 2)) = some 40 ∧
      ((40 ≤ capacity (nat_args false 2) example_small →
          rehash (nat_args false 2) example_small 40 = some example_small) ∧
        (capacity (nat_args false 2) example_small < 40 →
          rehash (nat_args false 2) example_small 40 = none ∨
            ∃ m', rehash (nat_args false 2) example_small 40 = some m' ∧
              rehash_to_new_container (nat_args false 2) example_small 40 = some m'.container ∧
              size (nat_args false 2) m' = size (nat_args false 2) example_small ∧
              (entries (nat_args false 2) m').Perm (entries (nat_args false 2) example_small) ∧
              (∀ k, find (nat_args false 2) m' k = find (nat_args false 2) example_small k) ∧
              (40 ≠ SIZE_MAX →
                capacity (nat_args false 2) m' =
                  (container_type (nat_args false 2)).capacity
                    (create_new_container (nat_args false 2) 40) ∧
                  40 ≤ capacity (nat_args false 2) m') ∧
              (40 = SIZE_MAX →
                capacity (nat_args false 2) m' =
                  (container_type (nat_args false 2)).capacity
                    (create_new_container (nat_args false 2)
                      ((size (nat_args false 2) example_small * 2) % 2 ^ 64))))) :=
  ⟨by rfl, rehash_spec (nat_args false 2) (nat_args_lawful false 2) example_small
    (by unfold nodup_keys; decide) 40⟩

/-- C9 as stated fails: after `clear()` on a newly constructed map the capacity is that of a
table requested with 128 slots, which differs from the capacity of the newly constructed map,
requested with 32 slots. -/
theorem clear_capacity_counterexample :
    capacity (nat_args false 2) (clear (nat_args false 2) (new (nat_args false 2))) = 128 ∧
      capacity (nat_args false 2) (new (nat_args false 2)) = 32 ∧
      capacity (nat_args false 2) (clear (nat_args false 2) (new (nat_args false 2))) ≠
        capacity (nat_args false 2) (new (nat_args false 2)) := by
  have h1 : capacity (nat_args false 2) (clear (nat_args false 2) (new (nat_args false 2))) =
      128 := by rfl
  have h2 : capacity (nat_args false 2) (new (nat_args false 2)) = 32 := by rfl
  refine ⟨h1, h2, ?_⟩
  rw [h1, h2]
  decide

/-- C9, amended. For every map, `clear()` leaves the map empty (`size() == 0`, `find` misses on
every key) with a fresh table constructed with requested capacity 128, whereas the table of a
newly constructed map is constructed with requested capacity 32; so `capacity()` after
`clear()` is at least 128 and is the capacity of a 128-slot request. -/
theorem clear_spec [Inhabited V] (cfg : template_args K V T) (hl : cfg.Lawful)
    (m : hopscotch_map K V T) :
    size cfg (clear cfg m) = 0 ∧
      (∀ k, find cfg (clear cfg m) k = none) ∧
      (clear cfg m).container = create_new_container cfg 128 ∧
      (new cfg).container = create_new_container cfg 32 ∧
      128 ≤ capacity cfg (clear cfg m) := by
  have he : entries cfg (clear cfg m) = [] := by
    simp [entries, clear, create_new_container, hl.1.create_elements]
  refine ⟨?_, fun k => find_eq_none hl (by simp [he]), rfl, rfl, hl.1.create_capacity 128⟩
  have := hl.1.size_eq (clear cfg m).container
  simpa [size, show (container_type cfg).elements (clear cfg m).container = [] from he]
    using this

/-- Witness for C9 amended: `clear()` on `example_small`. -/
theorem clear_spec_witness :
    size (nat_args false 2) (clear (nat_args false 2) example_small) = 0 ∧
      (∀ k, find (nat_args false 2) (clear (nat_args false 2) example_small) k = none) ∧
      (clear (nat_args false 2) example_small).container =
        create_new_container (nat_args false 2) 128 ∧
      (new (nat_args false 2)).container = create_new_container (nat_args false 2) 32 ∧
      128 ≤ capacity (nat_args false 2) (clear (nat_args false 2) example_small) :=
  clear_spec (nat_args false 2) (nat_args_lawful false 2) example_small

/-- C10 as stated fails: on the map `example_pair`, which holds the keys 0 and 64 in the two
slots of the neighbourhood of bucket 0, `operator[](128)` for the absent key 128 fails to place
`(128, 0)`, rebuilds the table with `size() * 2 = 4` slots, fails to place the pair again and
aborts on the assertion of `do_insert`: no entry is added and no value is returned. A table
requested with 64 slots, twice the capacity, has no room for `(128, 0)` after `(0, 1)` and
`(64, 2)` either. -/
theorem index_abort_counterexample :
    insert_all (nat_args false 2) (new (nat_args false 2)) [(0, 1), (64, 2)] =
        some example_pair ∧
      ((entries (nat_args false 2) example_pair).map Prod.fst).Nodup ∧
      find (nat_args false 2) example_pair 128 = none ∧
      do_insert (nat_args false 2) example_pair (128, default) = none ∧
      index (nat_args false 2) example_pair 128 = none ∧
      (reinsert_all (nat_args false 2) [(0, 1), (64, 2)]
          (create_new_container (nat_args false 2) 64)).map
        (fun t => ((container_type (nat_args false 2)).insert t (128, 0)).2) = some none := by
  refine ⟨by rfl, by decide, by rfl, by rfl, by rfl, by rfl⟩

/-- C10, amended (`operator[]` finds or default-inserts). For every map without duplicate keys and every
key `k`: if an entry `e` with key `k` is stored, `operator[](k)` returns its value and leaves
the map as it is; if `k` is absent, then either an assertion of the resize protocol aborts, or
the call returns the default value from a map whose entries are those of the old map plus
exactly `(k, default)`: `k` is found with the default value, `size()` has grown by one, and
`find` agrees with the old map on every other key. Nothing here depends on whether the
insertion resized the table. -/
theorem index_spec [Inhabited V] (cfg : template_args K V T) (hl : cfg.Lawful)
    (m : hopscotch_map K V T) (hn : nodup_keys cfg m) (k : K) :
    (∀ e ∈ entries cfg m, e.1 = k → index cfg m k = some (m, e.2)) ∧
      (find cfg m k = none →
        index cfg m k = none ∨
          ∃ m', index cfg m k = some (m', default) ∧
            (entries cfg m').Perm ((k, default) :: entries cfg m) ∧
            find cfg m' k = some (k, default) ∧
            size cfg m' = size cfg m + 1 ∧
            ∀ k', k' ≠ k → find cfg m' k' = find cfg m k') := by
  constructor
  · intro e he hk
    have hf : find cfg m k = some e := by
      rw [← hk]
      exact find_of_mem hl hn he
    simp [index, hf]
  · intro hf
    cases hd : do_insert cfg m (k, default) with
    | none => exact Or.inl (by simp [index, hf, hd])
    | some r =>
      obtain ⟨m', it⟩ := r
      obtain ⟨rfl, hp, _⟩ := do_insert_spec hl hd
      refine Or.inr ⟨m', by simp [index, hf, hd], hp, ?_, size_perm_cons hl hp, ?_⟩
      · exact find_perm_cons_self hl hn hf hp
      · intro k' hk'
        exact find_perm_cons_ne hl hn hf hp hk'

/-- Witness for C10 amended: `operator[](1)` on `example_small`, where key 1 is absent and its
insertion resizes the table; the call returns. -/
theorem index_spec_witness :
    (index (nat_args false 2) example_small 1).map Prod.snd = some 0 ∧
      ((∀ e ∈ entries (nat_args false 2) example_small, e.1 = 1 →
          index (nat_args false 2) example_small 1 = some (example_small, e.2)) ∧
        (find (nat_args false 2) example_small 1 = none →
          index (nat_args false 2) example_small 1 = none ∨
            ∃ m', index (nat_args false 2) example_small 1 = some (m', default) ∧
              (entries (nat_args false 2) m').Perm
                ((1, default) :: entries (nat_args false 2) example_small) ∧
              find (nat_args false 2) m' 1 = some (1, default) ∧
              size (nat_args false 2) m' = size (nat_args false 2) example_small + 1 ∧
              ∀ k', k' ≠ 1 →
                find (nat_args false 2) m' k' = find (nat_args false 2) example_small k')) :=
  ⟨by rfl, index_spec (nat_args false 2) (nat_args_lawful false 2) example_small
    (by unfold nodup_keys; decide) 1⟩

/-- C11 (`erase`). For every map without duplicate keys and every key `k`: `erase(k)` returns
true exactly when `find(k)` hit before the call; the capacity is unchanged; afterwards
`find(k)` misses and `find` agrees with the old map on every other key; when the call returns
true `size()` has decreased by one, and when it returns false the size, the entries and the
result of `find` on every key are those of the old map. Consequently, erasing a list `ks` of
distinct present keys one after another takes `ks.length` off the size, makes `find` miss on
each of them and leaves every other key retrievable with its entry (erasing 50 of 100 keys
leaves 50). -/
theorem erase_spec [Inhabited V] (cfg : template_args K V T) (hl : cfg.Lawful)
    (m : hopscotch_map K V T) (hn : nodup_keys cfg m) (k : K) :
    ((erase cfg m k).2 = true ↔ find cfg m k ≠ none) ∧
      capacity cfg (erase cfg m k).1 = capacity cfg m ∧
      find cfg (erase cfg m k).1 k = none ∧
      (∀ k', k' ≠ k → find cfg (erase cfg m k).1 k' = find cfg m k') ∧
      ((erase cfg m k).2 = true → size cfg (erase cfg m k).1 + 1 = size cfg m) ∧
      ((erase cfg m k).2 = false →
        size cfg (erase cfg m k).1 = size cfg m ∧
          (entries cfg (erase cfg m k).1).Perm (entries cfg m) ∧
          ∀ k', find cfg (erase cfg m k).1 k' = find cfg m k') ∧
      (∀ ks : List K, ks.Nodup → (∀ k' ∈ ks, find cfg m k' ≠ none) →
        size cfg (erase_all cfg m ks) + ks.length = size cfg m ∧
          (∀ k' ∈ ks, find cfg (erase_all cfg m ks) k' = none) ∧
          ∀ k', k' ∉ ks → find cfg (erase_all cfg m ks) k' = find cfg m k') := by
  refine ⟨erase_flag_iff hl m k, hl.1.erase_capacity _ _, erase_find_self hl hn k,
    fun k' hk' => erase_find_other hl hn hk', ?_, ?_, ?_⟩
  · intro hb
    have := erase_size hl m k
    rw [hb, if_pos rfl] at this
    exact this
  · intro hb
    rcases erase_cases hl m k with ⟨hb', _⟩ | ⟨_, _, hp⟩
    · rw [hb] at hb'
      cases hb'
    · exact ⟨size_perm hl hp, hp, find_congr hl hn hp⟩
  · intro ks hks hpres
    exact (erase_all_spec hl ks m hn hks hpres).2

/-- Witness for C11: `erase(32)` on `example_grown`, which holds the keys 0, 1, 32 and 2; the
call returns true and leaves three entries. -/
theorem erase_spec_witness :
    (erase (nat_args false 2) example_grown 32).2 = true ∧
      size (nat_args false 2) (erase (nat_args false 2) example_grown 32).1 = 3 ∧
      (((erase (nat_args false 2) example_grown 32).2 = true ↔
          find (nat_args false 2) example_grown 32 ≠ none) ∧
        capacity (nat_args false 2) (erase (nat_args false 2) example_grown 32).1 =
          capacity (nat_args false 2) example_grown ∧
        find (nat_args false 2) (erase (nat_args false 2) example_grown 32).1 32 = none ∧
        (∀ k', k' ≠ 32 → find (nat_args false 2) (erase (nat_args false 2) example_grown 32).1 k' =
          find (nat_args false 2) example_grown k') ∧
        ((erase (nat_args false 2) example_grown 32).2 = true →
          size (nat_args false 2) (erase (nat_args false 2) example_grown 32).1 + 1 =
            size (nat_args false 2) example_grown) ∧
        ((erase (nat_args false 2) example_grown 32).2 = false →
          size (nat_args false 2) (erase (nat_args false 2) example_grown 32).1 =
              size (nat_args false 2) example_grown ∧
            (entries (nat_args false 2) (erase (nat_args false 2) example_grown 32).1).Perm
              (entries (nat_args false 2) example_grown) ∧
            ∀ k', find (nat_args false 2) (erase (nat_args false 2) example_grown 32).1 k' =
              find (nat_args false 2) example_grown k') ∧
        (∀ ks : List Nat, ks.Nodup →
          (∀ k' ∈ ks, find (nat_args false 2) example_grown k' ≠ none) →
          size (nat_args false 2) (erase_all (nat_args false 2) example_grown ks) + ks.length =
              size (nat_args false 2) example_grown ∧
            (∀ k' ∈ ks, find (nat_args false 2)
              (erase_all (nat_args false 2) example_grown ks) k' = none) ∧
            ∀ k', k' ∉ ks → find (nat_args false 2)
              (erase_all (nat_args false 2) example_grown ks) k' =
                find (nat_args false 2) example_grown k')) :=
  ⟨by rfl, by rfl, erase_spec (nat_args false 2) (nat_args_lawful false 2) example_grown
    (by unfold nodup_keys; decide) 32⟩

/-- C12 (capacity exhaustion is never surfaced). For every map and pair: `do_insert(v)` either
aborts or returns an iterator that is not `end()` and refers to `v`, which is an entry of the
table that is current after the call; `insert(v)` either aborts or returns an iterator that is
not `end()` and refers to an entry of the current table with the key of `v`; and `operator[](k)`
fails only by the abort of `do_insert` (never by reading through `end()`), and otherwise returns
the value of an entry with key `k` of the current table. -/
theorem no_end_iterator [Inhabited V] (cfg : template_args K V T) (hl : cfg.Lawful)
    (m : hopscotch_map K V T) (v : K × V) (k : K) :
    (do_insert cfg m v = none ∨
        ∃ m', do_insert cfg m v = some (m', some v) ∧ v ∈ entries cfg m') ∧
      (hopscotch_map.insert cfg m v = none ∨
        ∃ m' e b, hopscotch_map.insert cfg m v = some (m', some e, b) ∧ e.1 = v.1 ∧
          e ∈ entries cfg m') ∧
      (index cfg m k = none → find cfg m k = none ∧ do_insert cfg m (k, default) = none) ∧
      (∀ m' x, index cfg m k = some (m', x) → ∃ e ∈ entries cfg m', e.1 = k ∧ e.2 = x) := by
  have hdo : ∀ w : K × V, do_insert cfg m w = none ∨
      ∃ m', do_insert cfg m w = some (m', some w) ∧ w ∈ entries cfg m' := by
    intro w
    cases hd : do_insert cfg m w with
    | none => exact Or.inl rfl
    | some r =>
      obtain ⟨m', it⟩ := r
      obtain ⟨rfl, hp, _⟩ := do_insert_spec hl hd
      exact Or.inr ⟨m', rfl, hp.symm.subset (List.mem_cons_self _ _)⟩
  refine ⟨hdo v, ?_, ?_, ?_⟩
  · cases hf : find cfg m v.1 with
    | some e =>
      have := find_some_mem hl hf
      exact Or.inr ⟨m, e, false, by simp [hopscotch_map.insert, hf], this.2, this.1⟩
    | none =>
      rcases hdo v with hd | ⟨m', hd, hmem⟩
      · exact Or.inl (by simp [hopscotch_map.insert, hf, hd])
      · exact Or.inr ⟨m', v, true, by simp [hopscotch_map.insert, hf, hd], rfl, hmem⟩
  · intro hi
    cases hf : find cfg m k with
    | some e => simp [index, hf] at hi
    | none =>
      refine ⟨rfl, ?_⟩
      rcases hdo (k, default) with hd | ⟨m', hd, _⟩
      · exact hd
      · simp [index, hf, hd] at hi
  · intro m' x hi
    cases hf : find cfg m k with
    | some e =>
      simp only [index, hf, Option.some.injEq, Prod.mk.injEq] at hi
      obtain ⟨rfl, rfl⟩ := hi
      have := find_some_mem hl hf
      exact ⟨e, this.1, this.2, rfl⟩
    | none =>
      rcases hdo (k, default) with hd | ⟨m1, hd, hmem⟩
      · simp [index, hf, hd] at hi
      · simp only [index, hf, hd, Option.some.injEq, Prod.mk.injEq] at hi
        obtain ⟨rfl, rfl⟩ := hi
        exact ⟨(k, default), hmem, rfl, rfl⟩

/-- Witness for C12: the pair `(1, 13)` and the key 1 on `example_small`, where the first
placement fails and the table is replaced; `do_insert` returns the iterator to `(1, 13)`. -/
theorem no_end_iterator_witness :
    (do_insert (nat_args false 2) example_small (1, 13)).map Prod.snd = some (some (1, 13)) ∧
      ((do_insert (nat_args false 2) example_small (1, 13) = none ∨
          ∃ m', do_insert (nat_args false 2) example_small (1, 13) = some (m', some (1, 13)) ∧
            (1, 13) ∈ entries (nat_args false 2) m') ∧
        (hopscotch_map.insert (nat_args false 2) example_small (1, 13) = none ∨
          ∃ m' e b, hopscotch_map.insert (nat_args false 2) example_small (1, 13) =
              some (m', some e, b) ∧ e.1 = (1, 13).1 ∧ e ∈ entries (nat_args false 2) m') ∧
        (index (nat_args false 2) example_small 1 = none →
          find (nat_args false 2) example_small 1 = none ∧
            do_insert (nat_args false 2) example_small (1, default) = none) ∧
        (∀ m' x, index (nat_args false 2) example_small 1 = some (m', x) →
          ∃ e ∈ entries (nat_args false 2) m', e.1 = 1 ∧ e.2 = x)) :=
  ⟨by rfl, no_end_iterator (nat_args false 2) (nat_args_lawful false 2) example_small (1, 13) 1⟩

/-- C14 (key-projection adapters). For all pairs, `hash_redirect` returns the hash of the key
and `key_equal_redirect` returns the comparison of the two keys; hence the hash of a pair does
not depend on its value, the comparison of two pairs does not depend on their values, and two
pairs with the same key compare equal whenever the key compares equal to itself. -/
theorem redirect_projections {K V : Type} (hash_fn : K → Nat) (eq_fn : K → K → Bool) :
    (∀ p : K × V, hash_redirect hash_fn p = hash_fn p.1) ∧
      (∀ p1 p2 : K × V, key_equal_redirect eq_fn p1 p2 = eq_fn p1.1 p2.1) ∧
      (∀ (k : K) (v1 v2 : V), hash_redirect hash_fn (k, v1) = hash_redirect hash_fn (k, v2)) ∧
      (∀ (k1 k2 : K) (v1 v2 w1 w2 : V),
        key_equal_redirect eq_fn (k1, v1) (k2, v2) = key_equal_redirect eq_fn (k1, w1) (k2, w2)) ∧
      (∀ (k : K) (v1 v2 : V), eq_fn k k = true →
        key_equal_redirect eq_fn (k, v1) (k, v2) = true) :=
  ⟨fun _ => rfl, fun _ _ => rfl, fun _ _ _ => rfl, fun _ _ _ _ _ _ => rfl, fun _ _ _ h => h⟩

/-- Witness for C14: the adapters over natural keys with the identity hash and decidable
equality; the pairs `(7, 1)` and `(7, 2)` compare equal. -/
theorem redirect_projections_witness :
    key_equal_redirect (fun a b : Nat => decide (a = b)) ((7 : Nat), (1 : Nat)) (7, 2) = true :=
  (@redirect_projections Nat Nat (fun k : Nat => k) (fun a b : Nat => decide (a = b))).2.2.2.2
    7 1 2 (by decide)

set_option maxRecDepth 100000 in
set_option maxHeartbeats 4000000 in
/-- C15 (resize doubles capacity), evaluated at a failing input. For every map, the table
that `rehash_to_new_container()` fills is constructed with requested capacity
`size() * 2` (modulo `2^64`). On `example_small`, whose capacity is 32 and size 3, the failing
insertion of `(1, 13)` therefore installs a table requested with 6 slots, not 64, both in
`do_insert` and in the exclusive path of `put_sync`. With neighbourhood size 32, the first 50
pairs of `scenario_pairs` leave a map of capacity 64 and size 50, and the failing insertion of
the next pair installs a table of 100 slots, not 128. -/
theorem resize_requests_twice_size :
    (∀ (K V T : Type) (cfg : template_args K V T) (m : hopscotch_map K V T),
        rehash_to_new_container cfg m SIZE_MAX =
          reinsert_all cfg (entries cfg m)
            (create_new_container cfg ((size cfg m * 2) % 2 ^ 64))) ∧
      capacity (nat_args false 2) example_small = 32 ∧
      size (nat_args false 2) example_small = 3 ∧
      ((container_type (nat_args false 2)).insert example_small.container (1, 13)).2 = none ∧
      (do_insert (nat_args false 2) example_small (1, 13)).map
          (fun r => capacity (nat_args false 2) r.1) = some 6 ∧
      ((container_type (nat_args true 2)).put_sync example_small.container (1, 13)).2 = false ∧
      (put_sync (nat_args true 2) example_small (1, 13)).map (capacity (nat_args true 2)) =
        some 6 ∧
      (container_type (nat_args false 2)).capacity
          (create_new_container (nat_args false 2) (2 * 32)) = 64 ∧
      (insert_all (nat_args false 32) (new (nat_args false 32)) (scenario_pairs.take 50)).map
          (fun m => (size (nat_args false 32) m, capacity (nat_args false 32) m)) =
        some (50, 64) ∧
      (insert_all (nat_args false 32) (new (nat_args false 32)) (scenario_pairs.take 51)).map
          (fun m => (size (nat_args false 32) m, capacity (nat_args false 32) m)) =
        some (51, 100) := by
  refine ⟨fun _ _ _ _ _ => rfl, by rfl, by rfl, by rfl, by rfl, by rfl, by rfl, by rfl,
    by decide, by decide⟩

/-- C16 (single-threaded `put_sync`, synchronized configuration). For every map without
duplicate keys and every pair `(k, v)`: if `put_sync(k, v)` returns, then `get_sync(k)` returns
`(true, v)`, `find` agrees with the old map on every other key, so that `get_sync` returns the
same found value for every other present key, and `size()` has grown by one if `k` was absent
and is unchanged if `k` was present. The statement is about every returning call, whichever of
the three paths it takes. -/
theorem put_sync_then_get_sync [Inhabited V] (cfg : template_args K V T)
    (hs : cfg.Synchronized = true) (hl : cfg.Lawful) (m m' : hopscotch_map K V T)
    (hn : nodup_keys cfg m) (k : K) (v : V) (h : put_sync cfg m (k, v) = some m') :
    (get_sync cfg m' k).2 = some (true, v) ∧
      find cfg m' k = some (k, v) ∧
      (∀ k', k' ≠ k → find cfg m' k' = find cfg m k') ∧
      (∀ k' x, k' ≠ k → (get_sync cfg m k').2 = some (true, x) →
        (get_sync cfg m' k').2 = some (true, x)) ∧
      (find cfg m k = none → size cfg m' = size cfg m + 1) ∧
      (find cfg m k ≠ none → size cfg m' = size cfg m) := by
  classical
  have hp := put_sync_entries hl hn h
  obtain ⟨hn', hfk, hother⟩ := find_assoc_put hl hn hp
  obtain ⟨hs1, hs2⟩ := size_assoc_put hl hn hp
  refine ⟨get_sync_found hs hl hn' hfk, hfk, hother, ?_, hs1, hs2⟩
  intro k' x hk' hg
  cases hf : find cfg m k' with
  | none =>
    obtain ⟨y, hy⟩ := get_sync_missed hs hl hf
    rw [hy] at hg
    simp at hg
  | some e =>
    rw [get_sync_found hs hl hn hf] at hg
    rw [get_sync_found hs hl hn' ((hother k' hk').trans hf)]
    exact hg

/-- Witness for C16: `put_sync(1, 13)` on `example_small` in the synchronized configuration;
the table's `put_sync` and the retried `insert` both fail, so the call takes the resize path,
as its history shows, and returns. -/
theorem put_sync_then_get_sync_witness :
    ∃ m', put_sync (nat_args true 2) example_small (1, 13) = some m' ∧
      m'.history = [map_event.readlock, map_event.rdunlock, map_event.writelock,
        map_event.swap, map_event.wrunlock, map_event.destroy] ∧
      (get_sync (nat_args true 2) m' 1).2 = some (true, 13) ∧
      find (nat_args true 2) m' 1 = some (1, 13) ∧
      (∀ k', k' ≠ 1 → find (nat_args true 2) m' k' = find (nat_args true 2) example_small k') ∧
      (∀ k' x, k' ≠ 1 → (get_sync (nat_args true 2) example_small k').2 = some (true, x) →
        (get_sync (nat_args true 2) m' k').2 = some (true, x)) ∧
      (find (nat_args true 2) example_small 1 = none →
        size (nat_args true 2) m' = size (nat_args true 2) example_small + 1) ∧
      (find (nat_args true 2) example_small 1 ≠ none →
        size (nat_args true 2) m' = size (nat_args true 2) example_small) :=
  ⟨(put_sync (nat_args true 2) example_small (1, 13)).get (by rfl),
    (Option.some_get _).symm, by rfl,
    put_sync_then_get_sync (nat_args true 2) rfl (nat_args_lawful true 2) example_small _
      (by unfold nodup_keys; decide) 1 13 (Option.some_get _).symm⟩

/-- C18 as stated fails: loading the well-formed archive `3, 32, (0, 1), (64, 2), (128, 3)`
into a new map clears the table in place, inserts `(0, 1)` and `(64, 2)` into the two slots of
the neighbourhood of bucket 0, fails to place `(128, 3)`, rebuilds the table with
`size() * 2 = 4` slots, fails again and aborts on the assertion of `do_insert`: no mapping
results, whereas the three keys are distinct. A table requested with 64 slots, twice the
capacity, has no room for `(128, 3)` after `(0, 1)` and `(64, 2)` either. -/
theorem load_abort_counterexample :
    capacity (nat_args false 2) (new (nat_args false 2)) = 32 ∧
      load (nat_args false 2) (new (nat_args false 2))
        [archive_item.num 3, archive_item.num 32, archive_item.entry (0, 1),
          archive_item.entry (64, 2), archive_item.entry (128, 3)] =
        Except.error failure.abort ∧
      insert_all (nat_args false 2) (new (nat_args false 2)) [(0, 1), (64, 2), (128, 3)] =
        none ∧
      (reinsert_all (nat_args false 2) [(0, 1), (64, 2)]
          (create_new_container (nat_args false 2) 64)).map
        (fun t => ((container_type (nat_args false 2)).insert t (128, 3)).2) = some none := by
  refine ⟨by rfl, by rfl, by rfl, by rfl⟩

/-- C18, amended (`load` replaces the content). For every target map, capacity `c` and list of entries
`es`, `load` of the archive `es.length, c, es` either aborts on an assertion of the resize
protocol or returns the map that the calls `insert(e)` for `e` in `es`, in order, produce from
the emptied target: the target with a new table constructed with requested capacity `c` when
`c` differs from `capacity()`, and with its own table cleared in place otherwise. In the
result `find(k)` returns the first entry of `es` with key `k` (a miss if there is none), every
entry comes from `es`, an entry of the old target whose key does not occur in `es` is gone, and
`find` agrees on every key with the result of the same inserts on any other empty map. -/
theorem load_spec [Inhabited V] [DecidableEq K] (cfg : template_args K V T) (hl : cfg.Lawful)
    (m : hopscotch_map K V T) (c : Nat) (es : List (K × V)) :
    load cfg m (archive_item.num es.length :: archive_item.num c ::
        es.map archive_item.entry) = Except.error failure.abort ∨
      ∃ m', load cfg m (archive_item.num es.length :: archive_item.num c ::
          es.map archive_item.entry) = Except.ok m' ∧
        insert_all cfg
          (if capacity cfg m ≠ c then
            { m with container := create_new_container cfg c,
                     history := m.history ++ [map_event.destroy, map_event.swap] }
          else { m with container := (container_type cfg).clear m.container }) es = some m' ∧
        (∀ k, find cfg m' k = es.find? (fun e => decide (e.1 = k))) ∧
        (∀ e ∈ entries cfg m', e ∈ es) ∧
        (∀ e ∈ entries cfg m, (∀ x ∈ es, x.1 ≠ e.1) → find cfg m' e.1 = none) ∧
        (∀ m0 m0', entries cfg m0 = [] → insert_all cfg m0 es = some m0' →
          ∀ k, find cfg m' k = find cfg m0' k) := by
  have hempty : ∀ (m0 m0' : hopscotch_map K V T), entries cfg m0 = [] →
      insert_all cfg m0 es = some m0' →
      nodup_keys cfg m0' ∧ ∀ k, find cfg m0' k = es.find? (fun e => decide (e.1 = k)) := by
    intro m0 m0' h0 hi
    have hn0 : nodup_keys cfg m0 := by simp [nodup_keys, h0]
    refine ⟨(insert_all_spec hl es m0 m0' hn0 hi).1, fun k => ?_⟩
    rw [insert_all_find hl es m0 m0' hn0 hi k, find_eq_none hl (by simp [h0])]
  rw [load_eq_insert_all]
  cases hi : insert_all cfg
      (if capacity cfg m ≠ c then
        { m with container := create_new_container cfg c,
                 history := m.history ++ [map_event.destroy, map_event.swap] }
      else { m with container := (container_type cfg).clear m.container }) es with
  | none => exact Or.inl rfl
  | some m' =>
    have htarget : entries cfg
        (if capacity cfg m ≠ c then
          ({ m with container := create_new_container cfg c,
                    history := m.history ++ [map_event.destroy, map_event.swap] } :
            hopscotch_map K V T)
        else { m with container := (container_type cfg).clear m.container }) = [] := by
      split
      · simp [entries, create_new_container, hl.1.create_elements]
      · simp [entries, hl.1.clear_elements]
    obtain ⟨hn', hfind⟩ := hempty _ m' htarget hi
    refine Or.inr ⟨m', rfl, rfl, hfind, ?_, ?_, ?_⟩
    · intro e he
      have := find_of_mem hl hn' he
      rw [hfind] at this
      exact List.mem_of_find?_eq_some this
    · intro e _ hx
      rw [hfind]
      exact List.find?_eq_none.2 (fun x hxs => by simpa using hx x hxs)
    · intro m0 m0' h0 hi0 k
      rw [hfind, (hempty m0 m0' h0 hi0).2 k]

/-- Witness for C18 amended: loading the archive `3, 6, (1, 13), (7, 70), (1, 99)` into
`example_small`, a non-empty target of capacity 32; the load returns, key 1 maps to 13, key 7
to 70, and the old key 32 is gone. -/
theorem load_spec_witness :
    (∃ m', load (nat_args false 2) example_small
          [archive_item.num 3, archive_item.num 6, archive_item.entry (1, 13),
            archive_item.entry (7, 70), archive_item.entry (1, 99)] = Except.ok m' ∧
        find (nat_args false 2) m' 1 = some (1, 13) ∧
        find (nat_args false 2) m' 7 = some (7, 70) ∧
        find (nat_args false 2) m' 32 = none ∧
        capacity (nat_args false 2) m' = 6) ∧
      (load (nat_args false 2) example_small
          (archive_item.num [(1, 13), (7, 70), (1, 99)].length :: archive_item.num 6 ::
            [(1, 13), (7, 70), (1, 99)].map archive_item.entry) = Except.error failure.abort ∨
        ∃ m', load (nat_args false 2) example_small
            (archive_item.num [(1, 13), (7, 70), (1, 99)].length :: archive_item.num 6 ::
              [(1, 13), (7, 70), (1, 99)].map archive_item.entry) = Except.ok m' ∧
          insert_all (nat_args false 2)
            (if capacity (nat_args false 2) example_small ≠ 6 then
              { example_small with
                container := create_new_container (nat_args false 2) 6,
                history := example_small.history ++ [map_event.destroy, map_event.swap] }
            else { example_small with
              container := (container_type (nat_args false 2)).clear example_small.container })
            [(1, 13), (7, 70), (1, 99)] = some m' ∧
          (∀ k, find (nat_args false 2) m' k =
            [(1, 13), (7, 70), (1, 99)].find? (fun e => decide (e.1 = k))) ∧
          (∀ e ∈ entries (nat_args false 2) m', e ∈ [(1, 13), (7, 70), (1, 99)]) ∧
          (∀ e ∈ entries (nat_args false 2) example_small,
            (∀ x ∈ [(1, 13), (7, 70), (1, 99)], x.1 ≠ e.1) →
              find (nat_args false 2) m' e.1 = none) ∧
          (∀ m0 m0', entries (nat_args false 2) m0 = [] →
            insert_all (nat_args false 2) m0 [(1, 13), (7, 70), (1, 99)] = some m0' →
            ∀ k, find (nat_args false 2) m' k = find (nat_args false 2) m0' k)) :=
  ⟨⟨{ container := [none, some (1, 13), some (7, 70), none, none, none]
      lock := { readers := 0, writer := false }
      history := [map_event.destroy, map_event.swap] }, by rfl, by rfl, by rfl, by rfl, by rfl⟩,
    load_spec (nat_args false 2) (nat_args_lawful false 2) example_small 6
      [(1, 13), (7, 70), (1, 99)]⟩

/-- C19 (`save` layout). For every map, `save` writes `size()`, then `capacity()`, then the
entries in the order of the iteration from `begin()` to `end()`, each once; the number of
entries written after the two integers is the size written first. -/
theorem save_layout (cfg : template_args K V T) (hl : cfg.Lawful) (m : hopscotch_map K V T) :
    save cfg m = archive_item.num (size cfg m) :: archive_item.num (capacity cfg m) ::
        (entries cfg m).map archive_item.entry ∧
      ((entries cfg m).map archive_item.entry).length = size cfg m := by
  refine ⟨rfl, ?_⟩
  rw [List.length_map]
  exact (hl.1.size_eq _).symm

/-- Witness for C19: the archive written for `example_grown`. -/
theorem save_layout_witness :
    save (nat_args false 2) example_grown =
        archive_item.num (size (nat_args false 2) example_grown) ::
          archive_item.num (capacity (nat_args false 2) example_grown) ::
          (entries (nat_args false 2) example_grown).map archive_item.entry ∧
      ((entries (nat_args false 2) example_grown).map archive_item.entry).length =
        size (nat_args false 2) example_grown :=
  save_layout (nat_args false 2) (nat_args_lawful false 2) example_grown

/-- C20 (unsynchronized mode). When `Synchronized` is false, for every map: `put_sync(k, v)` is
the assignment `(*this)[k] = v`, `erase_sync(k)` is `erase(k)` (same result, same state), and
`get_sync(k)` returns the map as it is; none of them performs a lock operation: the lock is
untouched, and the only steps a returning `put_sync` can add to the history are the pointer
swap and the deletion of the old table by `do_insert`. -/
theorem unsynchronized_degrades [Inhabited V] (cfg : template_args K V T)
    (hs : cfg.Synchronized = false) (m : hopscotch_map K V T) (k : K) (v : V) :
    put_sync cfg m (k, v) = index_assign cfg m k v ∧
      erase_sync cfg m k = erase cfg m k ∧
      (get_sync cfg m k).1 = m ∧
      (∀ m', put_sync cfg m (k, v) = some m' →
        m'.lock = m.lock ∧
          (m'.history = m.history ∨
            m'.history = m.history ++ [map_event.swap, map_event.destroy])) ∧
      (erase_sync cfg m k).1.lock = m.lock ∧
      (erase_sync cfg m k).1.history = m.history := by
  have hput : put_sync cfg m (k, v) = index_assign cfg m k v := by
    simp [put_sync, hs]
  have herase : erase_sync cfg m k = erase cfg m k := by
    simp [erase_sync, hs]
  refine ⟨hput, herase, ?_, ?_, ?_, ?_⟩
  · simp only [get_sync, hs, Bool.not_false, if_true]
    split <;> rfl
  · intro m' h
    rw [hput] at h
    exact index_assign_lock h
  · rw [herase]
    rfl
  · rw [herase]
    rfl

/-- Witness for C20: the unsynchronized operations on `example_small`; `put_sync(1, 13)`
resizes the table and adds only `swap, destroy` to the history. -/
theorem unsynchronized_degrades_witness :
    (put_sync (nat_args false 2) example_small (1, 13)).map (fun m => (m.lock, m.history)) =
        some (example_small.lock, [map_event.swap, map_event.destroy]) ∧
      (put_sync (nat_args false 2) example_small (1, 13) =
          index_assign (nat_args false 2) example_small 1 13 ∧
        erase_sync (nat_args false 2) example_small 1 = erase (nat_args false 2) example_small 1 ∧
        (get_sync (nat_args false 2) example_small 1).1 = example_small ∧
        (∀ m', put_sync (nat_args false 2) example_small (1, 13) = some m' →
          m'.lock = example_small.lock ∧
            (m'.history = example_small.history ∨
              m'.history = example_small.history ++ [map_event.swap, map_event.destroy])) ∧
        (erase_sync (nat_args false 2) example_small 1).1.lock = example_small.lock ∧
        (erase_sync (nat_args false 2) example_small 1).1.history = example_small.history) :=
  ⟨by rfl, unsynchronized_degrades (nat_args false 2) rfl example_small 1 13⟩

/-- C21 (no read through `end()` in the unsynchronized `get_sync`), evaluated at a failing
input. In the unsynchronized configuration the returned value is `iter->second` for the
iterator `iter` returned by `find(k)`, whatever `find` returned: for every map and key the
result of the read is the entry behind the iterator when `find` hit and the error branch when
it missed. So for the absent key 5 of `example_small`, and for every key of a newly constructed
map, `get_sync` reads through `end()`; the synchronized configuration returns `(false, _)` for
the same absent key without reading through an iterator. -/
theorem get_sync_reads_through_end :
    (∀ (K V T : Type) [Inhabited V] (Hash : K → Nat) (KeyEqual : K → K → Bool)
        (table : (K × V → Nat) → (K × V → K × V → Bool) → hopscotch_table (K × V) K T)
        (m : hopscotch_map K V T) (k : K),
        (get_sync { Synchronized := false, Hash := Hash, KeyEqual := KeyEqual, table := table }
            m k).2 =
          (find { Synchronized := false, Hash := Hash, KeyEqual := KeyEqual, table := table }
            m k).map (fun e => (false, e.2))) ∧
      find (nat_args false 2) example_small 5 = none ∧
      (get_sync (nat_args false 2) example_small 5).2 = none ∧
      (∀ k, find (nat_args false 2) (new (nat_args false 2)) k = none) ∧
      (∀ k, (get_sync (nat_args false 2) (new (nat_args false 2)) k).2 = none) ∧
      (get_sync (nat_args true 2) example_small 5).2 = some (false, 0) := by
  refine ⟨?_, by rfl, by rfl, fun _ => rfl, fun _ => rfl, by rfl⟩
  intro K V T _ Hash KeyEqual table m k
  simp only [get_sync, Bool.not_false, if_true]
  split
  · rename_i hf
    rw [hf]
    rfl
  · rename_i e hf
    rw [hf]
    rfl

end claims

end graphlab
